import Mathlib

/-!
Verification development for the qqautochatbot message-aggregation core
(`qqbot/services/message_aggregator.py`), the silence register
(`qqbot/services/silence_mode.py`) and the block judgment stage
(`qqbot/services/block_judge.py`).

The Python code is shallowly embedded:
* oracle responses are strings; the brace-extraction and JSON decoding done by
  `_judge_wait_time` and `judge_block` are modelled by executable functions
  (`extractJsonSpan`, `jsonLoads`, a model of Python `json.loads` on the JSON
  subset the code consumes);
* the asynchronous aggregator is modelled as a transition system: the atomic
  events are one `add_message` call, the completion of a pending
  `_judge_wait_time` task, the firing of a pending `_wait_and_process` timer,
  and the return of the dispatch callback followed by the cleanup section.
  Cooperative single-threaded scheduling under the per-group lock makes each
  of these code segments atomic with respect to the shared state.
* Python object identity (`is`) is modelled with an allocation counter: blocks
  live in a heap indexed by block ids.
-/

namespace QQBot

/-- Python exception classes that the embedded code can raise. -/
inductive PyExc
  | cancelledError
  | valueError
  | typeError
  | attributeError
  | other
deriving DecidableEq

/-- JSON values as produced by `json.loads` (numbers as rationals; Python
floats are modelled as exact rationals, NaN/Infinity are not modelled). -/
inductive Json
  | null
  | bool (b : Bool)
  | num (q : ℚ)
  | str (s : List Char)
  | arr (elems : List Json)
  | obj (kvs : List (List Char × Json))

/-- Whitespace characters stripped by Python `str.strip()` (ASCII subset). -/
def isPyWs (c : Char) : Bool :=
  c = ' ' || c = '\t' || c = '\n' || c = '\x0d' || c = '\x0b' || c = '\x0c'

/-- Python `str.strip()`. -/
def pyStrip (s : List Char) : List Char :=
  ((s.dropWhile isPyWs).reverse.dropWhile isPyWs).reverse

/-- Index of the first occurrence of `c`, Python `str.find` (None for -1). -/
def pyFind (c : Char) (s : List Char) : Option Nat :=
  s.indexOf? c

/-- Index of the last occurrence of `c`, Python `str.rfind` (None for -1). -/
def pyRFind (c : Char) (s : List Char) : Option Nat :=
  (s.reverse.indexOf? c).map (fun i => s.length - 1 - i)

/-- The brace-span extraction both judges perform on an LLM response:
`json_start = text.find("{"); json_end = text.rfind("}") + 1`, and the slice
`text[json_start:json_end]` when `json_start >= 0 and json_end > json_start`. -/
def extractJsonSpan (s : List Char) : Option (List Char) :=
  match pyFind '\x7b' s, pyRFind '\x7d' s with
  | some i, some j => if i ≤ j then some ((s.drop i).take (j + 1 - i)) else none
  | _, _ => none

/-- Whitespace skipped by the JSON grammar. -/
def jsonSkipWs : List Char → List Char
  | c :: cs => if c = ' ' || c = '\t' || c = '\n' || c = '\x0d' then jsonSkipWs cs else c :: cs
  | [] => []

/-- Value of a hexadecimal digit. -/
def hexVal (c : Char) : Option Nat :=
  if '0' ≤ c ∧ c ≤ '9' then some (c.toNat - 48)
  else if 'a' ≤ c ∧ c ≤ 'f' then some (c.toNat - 87)
  else if 'A' ≤ c ∧ c ≤ 'F' then some (c.toNat - 55)
  else none

/-- Body of a JSON string after the opening quote: returns content and rest.
Standard escapes are supported; `\\u` escapes become the code point directly
(surrogate pairs are not recombined). -/
def jsonStringBody : List Char → Option (List Char × List Char)
  | '"' :: rest => some ([], rest)
  | '\\' :: 'u' :: h1 :: h2 :: h3 :: h4 :: rest => do
    let v1 ← hexVal h1
    let v2 ← hexVal h2
    let v3 ← hexVal h3
    let v4 ← hexVal h4
    let (cs, r) ← jsonStringBody rest
    pure (Char.ofNat (((v1 * 16 + v2) * 16 + v3) * 16 + v4) :: cs, r)
  | '\\' :: e :: rest => do
    let c ← match e with
      | '"' => some '"'
      | '\\' => some '\\'
      | '/' => some '/'
      | 'b' => some '\x08'
      | 'f' => some '\x0c'
      | 'n' => some '\n'
      | 'r' => some '\x0d'
      | 't' => some '\t'
      | _ => none
    let (cs, r) ← jsonStringBody rest
    pure (c :: cs, r)
  | c :: rest => do
    let (cs, r) ← jsonStringBody rest
    pure (c :: cs, r)
  | [] => none

/-- Digit run at the front of a string. -/
def takeDigits (s : List Char) : List Char × List Char :=
  (s.takeWhile Char.isDigit, s.dropWhile Char.isDigit)

/-- Numeric value of a digit run. -/
def digitsVal (ds : List Char) : Nat :=
  ds.foldl (fun a c => a * 10 + (c.toNat - 48)) 0

/-- JSON number grammar: `-? (0 | [1-9][0-9]*) (\.[0-9]+)? ([eE][+-]?[0-9]+)?`. -/
def jsonNumber (s : List Char) : Option (ℚ × List Char) :=
  let (negSign, s1) := match s with
    | '-' :: rest => (true, rest)
    | _ => (false, s)
  let (ds, s2) := takeDigits s1
  match ds with
  | [] => none
  | d0 :: drest =>
    if d0 = '0' ∧ drest ≠ [] then none
    else
      let intPart : ℚ := (digitsVal ds : ℚ)
      let (fracPart, s3) : ℚ × List Char :=
        match s2 with
        | '.' :: rest =>
          let (fs, r) := takeDigits rest
          (if fs = [] then (0, s2) else ((digitsVal fs : ℚ) / ((10 : ℚ) ^ fs.length), r))
        | _ => (0, s2)
      let fracOk : Bool := match s2 with
        | '.' :: rest => !(rest.takeWhile Char.isDigit).isEmpty
        | _ => true
      if fracOk then
        let (expOk, expVal, s4) : Bool × Int × List Char :=
          match s3 with
          | e :: rest =>
            if e = 'e' ∨ e = 'E' then
              let (esign, r1) : Bool × List Char := match rest with
                | '-' :: r => (true, r)
                | '+' :: r => (false, r)
                | _ => (false, rest)
              let (es, r2) := takeDigits r1
              if es = [] then (false, 0, s3)
              else (true, if esign then -(digitsVal es : Int) else (digitsVal es : Int), r2)
            else (true, 0, s3)
          | [] => (true, 0, s3)
        if expOk then
          let mag : ℚ := intPart + fracPart
          let mag := if negSign then -mag else mag
          let v : ℚ := if 0 ≤ expVal then mag * (10 : ℚ) ^ expVal.toNat else mag / (10 : ℚ) ^ (-expVal).toNat
          some (v, s4)
        else none
      else none

mutual

/-- Recursive-descent JSON value parser (fuel-indexed; every recursive call
decreases the fuel, `jsonLoads` supplies enough fuel for any input). -/
def jsonValue : Nat → List Char → Option (Json × List Char)
  | 0, _ => none
  | fuel + 1, s =>
    match jsonSkipWs s with
    | 'n' :: 'u' :: 'l' :: 'l' :: rest => some (.null, rest)
    | 't' :: 'r' :: 'u' :: 'e' :: rest => some (.bool true, rest)
    | 'f' :: 'a' :: 'l' :: 's' :: 'e' :: rest => some (.bool false, rest)
    | '"' :: rest => (jsonStringBody rest).map (fun p => (.str p.1, p.2))
    | '\x7b' :: rest =>
      (match jsonSkipWs rest with
       | '\x7d' :: r => some (.obj [], r)
       | _ => (jsonObjItems fuel rest).map (fun p => (.obj p.1, p.2)))
    | '[' :: rest =>
      (match jsonSkipWs rest with
       | ']' :: r => some (.arr [], r)
       | _ => (jsonArrItems fuel rest).map (fun p => (.arr p.1, p.2)))
    | rest => (jsonNumber rest).map (fun p => (.num p.1, p.2))

/-- Comma-separated array items followed by `]`. -/
def jsonArrItems : Nat → List Char → Option (List Json × List Char)
  | 0, _ => none
  | fuel + 1, s => do
    let (v, r1) ← jsonValue fuel s
    match jsonSkipWs r1 with
    | ',' :: r2 => do
      let (vs, r3) ← jsonArrItems fuel r2
      pure (v :: vs, r3)
    | ']' :: r2 => pure ([v], r2)
    | _ => none

/-- Comma-separated `"key": value` pairs followed by the closing brace. -/
def jsonObjItems : Nat → List Char → Option (List (List Char × Json) × List Char)
  | 0, _ => none
  | fuel + 1, s =>
    match jsonSkipWs s with
    | '"' :: rest => do
      let (k, r1) ← jsonStringBody rest
      match jsonSkipWs r1 with
      | ':' :: r2 => do
        let (v, r3) ← jsonValue fuel r2
        match jsonSkipWs r3 with
        | ',' :: r4 => do
          let (kvs, r5) ← jsonObjItems fuel r4
          pure ((k, v) :: kvs, r5)
        | '\x7d' :: r4 => pure ([(k, v)], r4)
        | _ => none
      | _ => none
    | _ => none

end

/-- Model of Python `json.loads`: parse one value and require only whitespace
to remain. `none` models a raised `json.JSONDecodeError`. -/
def jsonLoads (s : List Char) : Option Json :=
  match jsonValue (2 * s.length + 4) s with
  | some (j, rest) => if jsonSkipWs rest = [] then some j else none
  | none => none

/-- Python `dict.get` on the dictionary built by `json.loads`: later duplicate
keys overwrite earlier ones. -/
def pyGet (kvs : List (List Char × Json)) (k : List Char) : Option Json :=
  kvs.foldl (fun acc p => if p.1 = k then some p.2 else acc) none

/-- Python truthiness of a decoded JSON value. -/
def Json.truthy : Json → Bool
  | .null => false
  | .bool b => b
  | .num q => q ≠ 0
  | .str s => !s.isEmpty
  | .arr xs => !xs.isEmpty
  | .obj kvs => !kvs.isEmpty

/-- Python `float(x)` on a string argument (sign, digits, optional fraction
and exponent; surrounding blanks allowed; `inf`/`nan` are not modelled). -/
def pyFloatOfStr (s : List Char) : Option ℚ :=
  let t := pyStrip s
  let (negSign, t1) := match t with
    | '-' :: rest => (true, rest)
    | '+' :: rest => (false, rest)
    | _ => (false, t)
  let (ds, t2) := takeDigits t1
  let (fs, t3) : List Char × List Char := match t2 with
    | '.' :: rest => takeDigits rest
    | _ => ([], t2)
  let hasDot : Bool := match t2 with
    | '.' :: _ => true
    | _ => false
  if ds = [] ∧ fs = [] then none
  else
    let mag : ℚ := (digitsVal ds : ℚ) + (digitsVal fs : ℚ) / ((10 : ℚ) ^ fs.length)
    let afterMant := if hasDot then t3 else t2
    match afterMant with
    | [] => some (if negSign then -mag else mag)
    | e :: rest =>
      if e = 'e' ∨ e = 'E' then
        let (esign, r1) : Bool × List Char := match rest with
          | '-' :: r => (true, r)
          | '+' :: r => (false, r)
          | _ => (false, rest)
        let (es, r2) := takeDigits r1
        if es = [] ∨ r2 ≠ [] then none
        else
          let ev : Int := if esign then -(digitsVal es : Int) else (digitsVal es : Int)
          let v := if 0 ≤ ev then mag * (10 : ℚ) ^ ev.toNat else mag / (10 : ℚ) ^ (-ev).toNat
          some (if negSign then -v else v)
      else none

/-- Python `float(x)` on a decoded JSON value; `none` models a raised
`TypeError`/`ValueError`. -/
def pyFloat : Json → Option ℚ
  | .num q => some q
  | .bool b => some (if b then 1 else 0)
  | .str s => pyFloatOfStr s
  | _ => none

/-! ## Wait-Time Oracle handling (`MessageAggregator._judge_wait_time`) -/

/-- Outcome of the LLM call made by a judge task: the call either raises or
returns a response text. -/
inductive LLMOutcome
  | raises
  | returns (content : List Char)

/-- Key `"should_wait"`. -/
def swKey : List Char := ("should_wait").data

/-- Key `"wait_seconds"`. -/
def wsKey : List Char := ("wait_seconds").data

/-- The brace extraction followed by `json.loads`, as `_judge_wait_time` (and
`judge_block`) apply it to `response.content.strip()`. -/
def parsedResponse (content : List Char) : Option Json :=
  (extractJsonSpan (pyStrip content)).bind jsonLoads

/-- Python `result.get("wait_seconds")` combined with the `is None` test:
an absent key and a JSON `null` value both give `none`. -/
def pyGetValue (kvs : List (List Char × Json)) (k : List Char) : Option Json :=
  match pyGet kvs k with
  | some .null => none
  | o => o

/-- Body of `_judge_wait_time` from the strip of the LLM response to the wait
duration passed to `_wait_and_process`, with raising operations explicit:
`json.loads` raising, `.get` on a non-dict (`AttributeError`) and `float()` on
a non-convertible value. Paths that reach a `create_task` return the duration. -/
def judgeWaitBody (content : List Char) : Except PyExc ℚ :=
  let t := pyStrip content
  match extractJsonSpan t with
  | none => .ok 5
  | some jstr =>
    match jsonLoads jstr with
    | none => .error .valueError
    | some j =>
      match j with
      | .obj kvs =>
        let should_wait := (pyGet kvs swKey).getD (.bool true)
        if should_wait.truthy then
          match pyGetValue kvs wsKey with
          | none => .ok 5
          | some v =>
            match pyFloat v with
            | none => .error .typeError
            | some w => .ok (max 3 (min 10 w))
        else .ok 0
      | _ => .error .attributeError

/-- The `except Exception` handler of `_judge_wait_time`: any failure of the
LLM call or of the body schedules the 2-second fallback timer. -/
def waitDuration : LLMOutcome → ℚ
  | .raises => 2
  | .returns content =>
    match judgeWaitBody content with
    | .ok d => d
    | .error _ => 2

/-- The handler, with the exception channel kept visible: `_judge_wait_time`
completes without raising for every non-cancelled LLM outcome. -/
def waitDurationE (o : LLMOutcome) : Except PyExc ℚ :=
  match o with
  | .raises => .ok 2
  | .returns content =>
    match judgeWaitBody content with
    | .ok d => .ok d
    | .error _ => .ok 2

/-! ## Silence register (`qqbot/services/silence_mode.py`) -/

/-- `_silence_states`, the module-level dict from group id to flag. -/
def SilenceStates : Type := Int → Option Bool

/-- `is_silent`: `_silence_states.get(group_id, False)`. -/
def is_silent (st : SilenceStates) (group_id : Int) : Bool :=
  (st group_id).getD false

/-- `set_silent`: `_silence_states[group_id] = silent`. -/
def set_silent (st : SilenceStates) (group_id : Int) (silent : Bool) : SilenceStates :=
  fun g => if g = group_id then some silent else st g

/-- The empty initial dict. -/
def emptySilence : SilenceStates := fun _ => none

/-- Apply a sequence of `set_silent` operations in order. -/
def runSilenceOps (ops : List (Int × Bool)) : SilenceStates :=
  ops.foldl (fun st p => set_silent st p.1 p.2) emptySilence

/-! ## Aggregation core (`qqbot/services/message_aggregator.py`)

The aggregator is modelled as a transition system.  Atomic events (each a
contiguous code segment under the per-group lock, see the header comment):
one `add_message` call; completion of a pending `_judge_wait_time` task;
firing of a pending `_wait_and_process` timer (its post-sleep lock section,
ending with the dispatch-callback invocation); and the cleanup section after
the dispatch callback returns.  Timer tasks and judge tasks live in
append-only lists indexed by task id; blocks live in a heap indexed by an
allocation counter modelling Python object identity. -/

/-- `PendingMessage` dataclass. -/
structure PendingMessage where
  user_id : Int
  message_content : List Char
  timestamp : Nat
  is_bot_mentioned : Bool
deriving DecidableEq

/-- Status of an asyncio task in the model. -/
inductive TaskStatus
  | pending
  | done
  | cancelled
deriving DecidableEq

/-- A `_wait_and_process` task: scheduled by a judge task for a group with a
wait duration.  When it fires it looks the group's current block up afresh. -/
structure WaitTimer where
  group_id : Int
  wait_seconds : ℚ
  status : TaskStatus
deriving DecidableEq

/-- A `_judge_wait_time` task: created by `add_message`, capturing the group
and the block the call closed over. -/
structure JudgeTask where
  group_id : Int
  blockId : Nat
  status : TaskStatus
deriving DecidableEq

/-- `ResponseBlock` dataclass.  `blockId` is the allocation identity; the two
task fields hold task ids (the fields are not reset on cancellation, exactly
as in the source, where a cancelled task object stays in the attribute). -/
structure ResponseBlock where
  blockId : Nat
  group_id : Int
  messages : List PendingMessage
  created_at : Nat
  last_message_at : Nat
  is_processing : Bool
  wait_task : Option Nat
  judge_wait_task : Option Nat
deriving DecidableEq

/-- `ResponseBlock.get_message_count`. -/
def ResponseBlock.get_message_count (b : ResponseBlock) : Nat :=
  b.messages.length

/-- `ResponseBlock.has_bot_mention`. -/
def ResponseBlock.has_bot_mention (b : ResponseBlock) : Bool :=
  b.messages.any (fun m => m.is_bot_mentioned)

/-- State of one `MessageAggregator` plus the tasks it spawned. -/
structure AggState where
  blocks : Int → Option Nat
  heap : Nat → Option ResponseBlock
  timers : List WaitTimer
  judges : List JudgeTask
  inflight : List (Int × Nat)
  dispatched : List (Int × Nat × List PendingMessage)
  nextBlockId : Nat

/-- The freshly constructed aggregator. -/
def initState : AggState :=
  { blocks := fun _ => none
    heap := fun _ => none
    timers := []
    judges := []
    inflight := []
    dispatched := []
    nextBlockId := 0 }

/-- Update the heap at one block id. -/
def updateHeap (h : Nat → Option ResponseBlock) (bid : Nat)
    (f : ResponseBlock → ResponseBlock) : Nat → Option ResponseBlock :=
  fun x => if x = bid then (h bid).map f else h x

/-- Cancel the timer a block field refers to if it is pending
(`if task and not task.done(): task.cancel()`). -/
def cancelTimer (ts : List WaitTimer) (tid? : Option Nat) : List WaitTimer :=
  match tid? with
  | none => ts
  | some tid =>
    match ts[tid]? with
    | some t => if t.status = .pending then ts.set tid { t with status := .cancelled } else ts
    | none => ts

/-- Cancel the judge task a block field refers to if it is pending. -/
def cancelJudge (js : List JudgeTask) (jid? : Option Nat) : List JudgeTask :=
  match jid? with
  | none => js
  | some jid =>
    match js[jid]? with
    | some j => if j.status = .pending then js.set jid { j with status := .cancelled } else js
    | none => js

/-- A brand-new block, as `ResponseBlock(group_id=group_id)` constructs it. -/
def freshBlock (bid : Nat) (g : Int) (now : Nat) : ResponseBlock :=
  { blockId := bid
    group_id := g
    messages := []
    created_at := now
    last_message_at := now
    is_processing := false
    wait_task := none
    judge_wait_task := none }

/-- `MessageAggregator._get_block`: get the group's block, creating one if the
group has no entry. Returns the new state and the block id. -/
def getBlock (s : AggState) (g : Int) (now : Nat) : AggState × Nat :=
  match s.blocks g with
  | some bid => (s, bid)
  | none =>
    let bid := s.nextBlockId
    ({ s with
        blocks := fun x => if x = g then some bid else s.blocks x
        heap := fun x => if x = bid then some (freshBlock bid g now) else s.heap x
        nextBlockId := bid + 1 }, bid)

/-- `MessageAggregator.add_message` (the whole lock-held body; the awaited
cancellations have no state effect beyond the status changes).  Steps:
get-or-create the block; if it is processing substitute a brand-new block;
append the message; cancel a pending wait timer, then a pending judge task;
start a new judge task and store its id in `judge_wait_task`. -/
def addMessage (s : AggState) (g u : Int) (content : List Char) (mention : Bool)
    (now : Nat) : AggState :=
  let p1 := getBlock s g now
  let s1 := p1.1
  let bid0 := p1.2
  let p2 : AggState × Nat :=
    match s1.heap bid0 with
    | some b =>
      if b.is_processing then
        let nid := s1.nextBlockId
        ({ s1 with
            blocks := fun x => if x = g then some nid else s1.blocks x
            heap := fun x => if x = nid then some (freshBlock nid g now) else s1.heap x
            nextBlockId := nid + 1 }, nid)
      else (s1, bid0)
    | none => (s1, bid0)
  let s2 := p2.1
  let bid := p2.2
  let msg : PendingMessage :=
    { user_id := u, message_content := content, timestamp := now, is_bot_mentioned := mention }
  let s3 := { s2 with
    heap := updateHeap s2.heap bid
      (fun b => { b with messages := b.messages ++ [msg], last_message_at := now }) }
  match s3.heap bid with
  | none => s3
  | some b =>
    let timers' := cancelTimer s3.timers b.wait_task
    let judges' := cancelJudge s3.judges b.judge_wait_task
    let jid := judges'.length
    { s3 with
      timers := timers'
      judges := judges' ++ [{ group_id := g, blockId := bid, status := .pending }]
      heap := updateHeap s3.heap bid (fun b => { b with judge_wait_task := some jid }) }

/-- Completion of a pending `_judge_wait_time` task with LLM outcome `o`: the
computed duration is scheduled as a new wait timer whose id is stored in the
captured block's `wait_task` field, and the judge task finishes. -/
def judgeDone (s : AggState) (jid : Nat) (o : LLMOutcome) : Option AggState :=
  match s.judges[jid]? with
  | none => none
  | some j =>
    if j.status = .pending then
      let d := waitDuration o
      let tid := s.timers.length
      some { s with
        judges := s.judges.set jid { j with status := .done }
        timers := s.timers ++ [{ group_id := j.group_id, wait_seconds := d, status := .pending }]
        heap := updateHeap s.heap j.blockId (fun b => { b with wait_task := some tid }) }
    else none

/-- A pending wait timer fires: `_wait_and_process` after the sleep.  It looks
the current block up via `_get_block`; an empty block aborts; otherwise the
block is marked processing and the dispatch callback is invoked with it (the
invocation is recorded in `dispatched`, the pending cleanup in `inflight`). -/
def timerFire (s : AggState) (tid : Nat) (now : Nat) : Option AggState :=
  match s.timers[tid]? with
  | none => none
  | some t =>
    if t.status = .pending then
      let s0 := { s with timers := s.timers.set tid { t with status := .done } }
      let p := getBlock s0 t.group_id now
      let s1 := p.1
      let bid := p.2
      match s1.heap bid with
      | none => some s1
      | some b =>
        if b.get_message_count = 0 then some s1
        else
          some { s1 with
            heap := updateHeap s1.heap bid (fun b => { b with is_processing := true })
            inflight := s1.inflight ++ [(t.group_id, bid)]
            dispatched := s1.dispatched ++ [(t.group_id, bid, b.messages)] }
    else none

/-- `ResponseBlock.clear` applied inside the state: empties the block, resets
the timestamps and the processing flag, and cancels-and-drops both task
handles. -/
def clearBlock (s : AggState) (bid : Nat) (now : Nat) : AggState :=
  match s.heap bid with
  | none => s
  | some b =>
    { s with
      timers := cancelTimer s.timers b.wait_task
      judges := cancelJudge s.judges b.judge_wait_task
      heap := updateHeap s.heap bid (fun b => { b with
        messages := []
        created_at := now
        last_message_at := now
        is_processing := false
        wait_task := none
        judge_wait_task := none }) }

/-- The dispatch callback for an in-flight block returns (with or without an
exception — both are absorbed) and the cleanup section runs: the mapping is
compared against the processed block (log only) and `processing_block.clear()`
is called. -/
def dispatchDone (s : AggState) (g : Int) (bid : Nat) (now : Nat) : Option AggState :=
  if (g, bid) ∈ s.inflight then
    some { clearBlock s bid now with inflight := s.inflight.erase (g, bid) }
  else none

/-- Events of the aggregator transition system. -/
inductive Event
  | add (g u : Int) (content : List Char) (mention : Bool) (now : Nat)
  | judge (jid : Nat) (o : LLMOutcome)
  | fire (tid : Nat) (now : Nat)
  | finish (g : Int) (bid : Nat) (now : Nat)

/-- One step of the transition system; `none` when the event is not enabled. -/
def step (s : AggState) : Event → Option AggState
  | .add g u content mention now => some (addMessage s g u content mention now)
  | .judge jid o => judgeDone s jid o
  | .fire tid now => timerFire s tid now
  | .finish g bid now => dispatchDone s g bid now

/-- Multi-step execution of an event trace. -/
inductive Steps : AggState → List Event → AggState → Prop
  | nil (s : AggState) : Steps s [] s
  | cons {s s' s'' : AggState} {e : Event} {evs : List Event} :
      step s e = some s' → Steps s' evs s'' → Steps s (e :: evs) s''

/-- States reachable from the freshly constructed aggregator. -/
def Reachable (s : AggState) : Prop :=
  ∃ evs, Steps initState evs s

/-! ## Exception-tracking `add_message` (for the never-raises contract)

`add_message` contains two `await` points that re-raise what the awaited task
raises, each wrapped in `try: ... except asyncio.CancelledError: pass`.  Under
the cooperative-cancellation semantics a task awaited right after its
`cancel()` raises `CancelledError` into the awaiter. -/

/-- `try: await task; except asyncio.CancelledError: pass` applied to a task
that terminates by raising `raised`. -/
def awaitCancelled (raised : PyExc) : Except PyExc Unit :=
  match (Except.error raised : Except PyExc Unit) with
  | .error .cancelledError => .ok ()
  | .error e => .error e
  | .ok u => .ok u

/-- Whether the timer a block field refers to is pending
(`task and not task.done()`). -/
def timerPendingField (ts : List WaitTimer) (tid? : Option Nat) : Bool :=
  match tid? with
  | none => false
  | some tid =>
    match ts[tid]? with
    | some t => t.status = .pending
    | none => false

/-- Whether the judge task a block field refers to is pending. -/
def judgePendingField (js : List JudgeTask) (jid? : Option Nat) : Bool :=
  match jid? with
  | none => false
  | some jid =>
    match js[jid]? with
    | some j => j.status = .pending
    | none => false

/-- `add_message` with its exception channel explicit: identical control flow
to `addMessage`, with each awaited cancellation performed through the
`try/except CancelledError` wrapper. -/
def addMessageE (s : AggState) (g u : Int) (content : List Char) (mention : Bool)
    (now : Nat) : Except PyExc AggState := do
  let p1 := getBlock s g now
  let s1 := p1.1
  let bid0 := p1.2
  let p2 : AggState × Nat :=
    match s1.heap bid0 with
    | some b =>
      if b.is_processing then
        let nid := s1.nextBlockId
        ({ s1 with
            blocks := fun x => if x = g then some nid else s1.blocks x
            heap := fun x => if x = nid then some (freshBlock nid g now) else s1.heap x
            nextBlockId := nid + 1 }, nid)
      else (s1, bid0)
    | none => (s1, bid0)
  let s2 := p2.1
  let bid := p2.2
  let msg : PendingMessage :=
    { user_id := u, message_content := content, timestamp := now, is_bot_mentioned := mention }
  let s3 := { s2 with
    heap := updateHeap s2.heap bid
      (fun b => { b with messages := b.messages ++ [msg], last_message_at := now }) }
  match s3.heap bid with
  | none => pure s3
  | some b => do
    let timers' := cancelTimer s3.timers b.wait_task
    if timerPendingField s3.timers b.wait_task then
      let _ ← awaitCancelled .cancelledError
      pure ()
    let judges' := cancelJudge s3.judges b.judge_wait_task
    if judgePendingField s3.judges b.judge_wait_task then
      let _ ← awaitCancelled .cancelledError
      pure ()
    let jid := judges'.length
    pure { s3 with
      timers := timers'
      judges := judges' ++ [{ group_id := g, blockId := bid, status := .pending }]
      heap := updateHeap s3.heap bid (fun b => { b with judge_wait_task := some jid }) }

/-! ## Block judgment (`qqbot/services/block_judge.py`)

The dataclass fields are dynamically typed in Python — `from_dict` stores
whatever the decoded JSON holds — so the model keeps them as `Json` values. -/

/-- `ReplyPlan` dataclass. -/
structure ReplyPlan where
  reply_type : Json
  target_user_id : Json
  emotion : Json
  instruction : Json
  should_mention : Json
  related_messages : Json

/-- `BlockJudgeResult` dataclass. -/
structure BlockJudgeResult where
  should_reply : Json
  reply_count : Json
  block_summary : Json
  replies : List ReplyPlan
  explanation : Json
  user_complaining_too_much : Json
  user_asking_to_speak : Json

/-- `BlockJudgeResult.no_reply(reason)`. -/
def BlockJudgeResult.no_reply (reason : List Char) : BlockJudgeResult :=
  { should_reply := .bool false
    reply_count := .num 0
    block_summary := .str []
    replies := []
    explanation := .str reason
    user_complaining_too_much := .bool false
    user_asking_to_speak := .bool false }

/-- Python iteration over a decoded JSON value (`for r in data.get("replies", [])`):
lists iterate over elements, strings over their characters, dicts over their
keys; other values raise `TypeError`. -/
def pyIter : Json → Except PyExc (List Json)
  | .arr xs => .ok xs
  | .str s => .ok (s.map (fun c => .str [c]))
  | .obj kvs => .ok (kvs.map (fun p => .str p.1))
  | _ => .error .typeError

/-- One iteration of the `replies` loop: `r.get(...)` on each entry, raising
`AttributeError` when the entry is not a dict. -/
def replyPlanOf : Json → Except PyExc ReplyPlan
  | .obj rk => .ok
      { reply_type := (pyGet rk (("reply_type").data)).getD (.str (("topic").data))
        target_user_id := (pyGet rk (("target_user_id").data)).getD .null
        emotion := (pyGet rk (("emotion").data)).getD (.str (("happy").data))
        instruction := (pyGet rk (("instruction").data)).getD (.str [])
        should_mention := (pyGet rk (("should_mention").data)).getD (.bool false)
        related_messages := (pyGet rk (("related_messages").data)).getD (.str []) }
  | _ => .error .attributeError

/-- `BlockJudgeResult.from_dict`. -/
def BlockJudgeResult.from_dict : Json → Except PyExc BlockJudgeResult
  | .obj kvs => do
    let items ← pyIter ((pyGet kvs (("replies").data)).getD (.arr []))
    let replies ← items.mapM replyPlanOf
    .ok
      { should_reply := (pyGet kvs (("should_reply").data)).getD (.bool false)
        reply_count := (pyGet kvs (("reply_count").data)).getD (.num 0)
        block_summary := (pyGet kvs (("block_summary").data)).getD (.str [])
        replies := replies
        explanation := (pyGet kvs (("explanation").data)).getD (.str [])
        user_complaining_too_much :=
          (pyGet kvs (("user_complaining_too_much").data)).getD (.bool false)
        user_asking_to_speak :=
          (pyGet kvs (("user_asking_to_speak").data)).getD (.bool false) }
  | _ => .error .attributeError

/-- `BlockJudger.judge_block`: total in the model exactly as the
`try/except Exception` wrapper makes it total in the source; returns the
result and the silence register as updated by the feedback signals.  The
`group_id` truthiness tests (`if group_id`) treat `None` and `0` alike. -/
def judge_block (block : ResponseBlock) (_context : List Char) (group_id : Option Int)
    (silence : SilenceStates) (llm : LLMOutcome) : BlockJudgeResult × SilenceStates :=
  let body : Except PyExc (BlockJudgeResult × SilenceStates) :=
    if block.get_message_count = 0 then
      .ok (BlockJudgeResult.no_reply (("对话块为空").data), silence)
    else
      match llm with
      | .raises => .error .other
      | .returns content =>
        let t := pyStrip content
        match extractJsonSpan t with
        | none =>
          -- `raise ValueError("No JSON found in response")`, caught by the
          -- inner `except (json.JSONDecodeError, ValueError)`
          .ok (BlockJudgeResult.no_reply (("JSON解析失败").data), silence)
        | some jstr =>
          match jsonLoads jstr with
          | none => .ok (BlockJudgeResult.no_reply (("JSON解析失败").data), silence)
          | some data =>
            match BlockJudgeResult.from_dict data with
            | .error e => .error e
            | .ok result =>
              let silence' :=
                match group_id with
                | some gid =>
                  if gid ≠ 0 then
                    if result.user_complaining_too_much.truthy then
                      set_silent silence gid true
                    else if result.user_asking_to_speak.truthy then
                      set_silent silence gid false
                    else silence
                  else silence
                | none => silence
              .ok (result, silence')
  match body with
  | .ok r => r
  | .error _ => (BlockJudgeResult.no_reply (("判断出错").data), silence)

/-! ## Invariants of the aggregator state -/

/-- Basic well-formedness: every mapped block id resolves in the heap to a
block of that group, and ids at or above the allocation counter are free. -/
def WF (s : AggState) : Prop :=
  (∀ g bid, s.blocks g = some bid →
    ∃ b, s.heap bid = some b ∧ b.group_id = g ∧ b.blockId = bid) ∧
  (∀ bid, s.nextBlockId ≤ bid → s.heap bid = none)

/-- Every pending wait timer is the one referenced by the `wait_task` field of
the current (non-processing) block of its group. -/
def PendingTimerRefs (s : AggState) : Prop :=
  ∀ (tid : Nat) (t : WaitTimer), s.timers[tid]? = some t → t.status = .pending →
    ∃ bid b, s.blocks t.group_id = some bid ∧ s.heap bid = some b ∧
      b.wait_task = some tid ∧ b.is_processing = false

/-- Every pending judge task is the one referenced by the `judge_wait_task`
field of its captured block, which is still the current (non-processing)
block of its group. -/
def PendingJudgeRefs (s : AggState) : Prop :=
  ∀ (jid : Nat) (j : JudgeTask), s.judges[jid]? = some j → j.status = .pending →
    ∃ b, s.blocks j.group_id = some j.blockId ∧ s.heap j.blockId = some b ∧
      b.judge_wait_task = some jid ∧ b.is_processing = false

/-- No group ever has a pending wait timer and a pending judge task at the
same instant. -/
def NoTimerJudgeClash (s : AggState) : Prop :=
  ∀ (tid : Nat) (t : WaitTimer) (jid : Nat) (j : JudgeTask), s.timers[tid]? = some t → t.status = .pending →
    s.judges[jid]? = some j → j.status = .pending → t.group_id ≠ j.group_id

/-- The inductive invariant of the aggregator. -/
def Inv (s : AggState) : Prop :=
  WF s ∧ PendingTimerRefs s ∧ PendingJudgeRefs s ∧ NoTimerJudgeClash s

/-! ## Stage predicates for the single-burst temporal analysis -/

/-- No wait timer is pending anywhere. -/
def NoPendingTimers (s : AggState) : Prop :=
  ∀ (tid : Nat) (t : WaitTimer), s.timers[tid]? = some t → t.status ≠ .pending

/-- No judge task is pending anywhere. -/
def NoPendingJudges (s : AggState) : Prop :=
  ∀ (jid : Nat) (j : JudgeTask), s.judges[jid]? = some j → j.status ≠ .pending

/-- Before the first message of a burst: the group has no block and nothing
is pending or dispatched. -/
def StageA0 (g : Int) (s : AggState) : Prop :=
  WF s ∧ s.blocks g = none ∧ NoPendingTimers s ∧ NoPendingJudges s ∧
  s.dispatched = [] ∧ s.inflight = []

/-- Collecting, judge in flight: the burst's messages sit in the current
block, exactly one judge task (the block's) is pending, no timer is pending,
nothing has been dispatched. -/
def StageA1 (g : Int) (s : AggState) (bid jid : Nat) (ms : List PendingMessage) : Prop :=
  WF s ∧ s.blocks g = some bid ∧
  (∃ b, s.heap bid = some b ∧ b.messages = ms ∧ b.is_processing = false ∧
    b.judge_wait_task = some jid) ∧
  s.judges[jid]? = some { group_id := g, blockId := bid, status := .pending } ∧
  (∀ (jid' : Nat) (j : JudgeTask), s.judges[jid']? = some j → j.status = .pending → jid' = jid) ∧
  NoPendingTimers s ∧ s.dispatched = [] ∧ s.inflight = []

/-- Collecting, wait timer armed: exactly one wait timer (the block's) is
pending, no judge is pending, nothing has been dispatched. -/
def StageA2 (g : Int) (s : AggState) (bid tid : Nat) (ms : List PendingMessage) : Prop :=
  WF s ∧ s.blocks g = some bid ∧
  (∃ b, s.heap bid = some b ∧ b.messages = ms ∧ b.is_processing = false ∧
    b.wait_task = some tid) ∧
  (∃ d, s.timers[tid]? = some { group_id := g, wait_seconds := d, status := .pending }) ∧
  (∀ (tid' : Nat) (t : WaitTimer), s.timers[tid']? = some t → t.status = .pending → tid' = tid) ∧
  NoPendingJudges s ∧ s.dispatched = [] ∧ s.inflight = []

/-- Dispatch in progress: the block was handed to the callback exactly once
with the burst's messages; cleanup has not run yet. -/
def StageB (g : Int) (s : AggState) (bid : Nat) (ms : List PendingMessage) : Prop :=
  WF s ∧ s.blocks g = some bid ∧
  (∃ b, s.heap bid = some b ∧ b.is_processing = true) ∧
  NoPendingTimers s ∧ NoPendingJudges s ∧
  s.dispatched = [(g, bid, ms)] ∧ s.inflight = [(g, bid)]

/-- Burst finished: exactly one dispatch happened, cleanup has run, nothing
is pending. -/
def StageC (g : Int) (s : AggState) (bid : Nat) (ms : List PendingMessage) : Prop :=
  WF s ∧ NoPendingTimers s ∧ NoPendingJudges s ∧
  s.dispatched = [(g, bid, ms)] ∧ s.inflight = []

/-- Invariant maintained while a burst's messages arrive. -/
def ArrInv (g : Int) (s : AggState) (ms : List PendingMessage) : Prop :=
  (ms = [] ∧ StageA0 g s) ∨
  (∃ bid jid, StageA1 g s bid jid ms) ∨
  (∃ bid tid, StageA2 g s bid tid ms)

/-- Invariant maintained after the burst's messages have stopped. -/
def PostInv (g : Int) (s : AggState) (bid : Nat) (ms : List PendingMessage) : Prop :=
  (∃ jid, StageA1 g s bid jid ms) ∨
  (∃ tid, StageA2 g s bid tid ms) ∨
  StageB g s bid ms ∨
  StageC g s bid ms

/-- Whether an event is an `add_message` call. -/
def Event.isAdd : Event → Bool
  | .add .. => true
  | _ => false

/-- The message an `add_message` event appends. -/
def eventMsg (u : Int) (content : List Char) (mention : Bool) (now : Nat) : PendingMessage :=
  { user_id := u, message_content := content, timestamp := now, is_bot_mentioned := mention }

/-- An arrival phase for group `g`: a sequence of `add_message` calls for `g`
carrying the listed messages in order, arbitrarily interleaved with judge-task
completions — and, matching the claim's hypothesis that every message arrives
before the scheduled wait timer fires, no timer-fire event. -/
inductive ArrTrace (g : Int) : List Event → List PendingMessage → Prop
  | nil : ArrTrace g [] []
  | add (u : Int) (content : List Char) (mention : Bool) (now : Nat) {evs : List Event}
      {ms : List PendingMessage} (h : ArrTrace g evs ms) :
      ArrTrace g (Event.add g u content mention now :: evs)
        (eventMsg u content mention now :: ms)
  | judge (jid : Nat) (o : LLMOutcome) {evs : List Event} {ms : List PendingMessage}
      (h : ArrTrace g evs ms) :
      ArrTrace g (Event.judge jid o :: evs) ms

/-! ## Concrete states used by witnesses and counterexamples -/

/-- A sample pending message. -/
def msgHi : PendingMessage :=
  { user_id := 2, message_content := ("hi").data, timestamp := 0, is_bot_mentioned := false }

/-- State after one `add_message` for group 1 from the fresh aggregator. -/
def ceS1 : AggState := addMessage initState 1 2 (("hi").data) false 0

/-- State after the judge task completed (LLM call failed, 2s fallback). -/
def ceS2 : AggState := (judgeDone ceS1 0 .raises).getD initState

/-- State after the wait timer fired and the block was dispatched. -/
def ceS3 : AggState := (timerFire ceS2 0 1).getD initState

/-- State after the dispatch callback returned and cleanup ran. -/
def ceS4 : AggState := (dispatchDone ceS3 1 0 2).getD initState

/-- A block currently being processed. -/
def procBlock : ResponseBlock :=
  { blockId := 0, group_id := 1, messages := [msgHi], created_at := 0, last_message_at := 0,
    is_processing := true, wait_task := none, judge_wait_task := none }

/-- A state whose group-1 block is mid-dispatch. -/
def procState : AggState :=
  { blocks := fun x => if x = 1 then some 0 else none
    heap := fun x => if x = 0 then some procBlock else none
    timers := []
    judges := []
    inflight := [(1, 0)]
    dispatched := [(1, 0, [msgHi])]
    nextBlockId := 1 }

/-- An empty block with an armed wait timer. -/
def emptyBlk : ResponseBlock :=
  { blockId := 0, group_id := 1, messages := [], created_at := 0, last_message_at := 0,
    is_processing := false, wait_task := some 0, judge_wait_task := none }

/-- A state whose group-1 block is empty while its wait timer is pending. -/
def emptyTimerState : AggState :=
  { blocks := fun x => if x = 1 then some 0 else none
    heap := fun x => if x = 0 then some emptyBlk else none
    timers := [{ group_id := 1, wait_seconds := 5, status := .pending }]
    judges := []
    inflight := []
    dispatched := []
    nextBlockId := 1 }

/-- Oracle response asking to wait 7 seconds. -/
def respWait7 : List Char := ("\x7b\"should_wait\": true, \"wait_seconds\": 7\x7d").data

/-- The dictionary `json.loads` produces for `respWait7`. -/
def respWait7Kvs : List (List Char × Json) := [(swKey, Json.bool true), (wsKey, Json.num 7)]

/-- Oracle response asking not to wait. -/
def respNoWait : List Char := ("\x7b\"should_wait\": false\x7d").data

/-- The dictionary `json.loads` produces for `respNoWait`. -/
def respNoWaitKvs : List (List Char × Json) := [(swKey, Json.bool false)]

/-- Oracle response with braces but malformed JSON between them. -/
def respBad : List Char := ("\x7bx\x7d").data

/-- Oracle response with no brace-delimited span at all. -/
def respNoJson : List Char := ("hello").data

/-- A one-message block for the block-judge witnesses. -/
def sampleBlock : ResponseBlock :=
  { blockId := 0, group_id := 1, messages := [msgHi], created_at := 0, last_message_at := 0,
    is_processing := false, wait_task := none, judge_wait_task := none }

/-! # Theorems -/

/-! ## Small helper lemmas -/

theorem lookup_lt_length {α : Type} {l : List α} {i : Nat} {a : α} (h : l[i]? = some a) :
    i < l.length := by
  by_contra hc
  rw [List.getElem?_eq_none (by omega)] at h
  exact Option.noConfusion h

theorem updateHeap_same {h : Nat → Option ResponseBlock} {bid : Nat} {b : ResponseBlock}
    (f : ResponseBlock → ResponseBlock) (hb : h bid = some b) :
    updateHeap h bid f bid = some (f b) := by
  simp [updateHeap, hb]

theorem updateHeap_other {h : Nat → Option ResponseBlock} {bid x : Nat}
    (f : ResponseBlock → ResponseBlock) (hne : x ≠ bid) :
    updateHeap h bid f x = h x := by
  simp [updateHeap, hne]

theorem cancelTimer_length (ts : List WaitTimer) (o : Option Nat) :
    (cancelTimer ts o).length = ts.length := by
  rcases o with _ | tid
  · rfl
  · rcases h : ts[tid]? with _ | t
    · simp [cancelTimer, h]
    · by_cases hs : t.status = .pending <;> simp [cancelTimer, h, hs, List.length_set]

theorem cancelJudge_length (js : List JudgeTask) (o : Option Nat) :
    (cancelJudge js o).length = js.length := by
  rcases o with _ | jid
  · rfl
  · rcases h : js[jid]? with _ | j
    · simp [cancelJudge, h]
    · by_cases hs : j.status = .pending <;> simp [cancelJudge, h, hs, List.length_set]

theorem cancelTimer_pending {ts : List WaitTimer} {o : Option Nat} {i : Nat} {t : WaitTimer}
    (h : (cancelTimer ts o)[i]? = some t) (hp : t.status = .pending) :
    ts[i]? = some t ∧ o ≠ some i := by
  rcases o with _ | tid
  · exact ⟨by simpa [cancelTimer] using h, by simp⟩
  · rcases hg : ts[tid]? with _ | t0
    · have h' : ts[i]? = some t := by simpa [cancelTimer, hg] using h
      refine ⟨h', ?_⟩
      intro he
      cases he
      rw [hg] at h'
      exact Option.noConfusion h'
    · by_cases hs : t0.status = .pending
      · simp only [cancelTimer, hg, if_pos hs] at h
        by_cases hit : tid = i
        · subst hit
          rw [List.getElem?_set_self (lookup_lt_length hg)] at h
          cases h
          simp at hp
        · refine ⟨by rwa [List.getElem?_set_ne hit] at h, ?_⟩
          intro he
          cases he
          exact hit rfl
      · have h' : ts[i]? = some t := by simpa [cancelTimer, hg, hs] using h
        refine ⟨h', ?_⟩
        intro he
        cases he
        rw [hg] at h'
        cases h'
        exact hs hp

theorem cancelJudge_pending {js : List JudgeTask} {o : Option Nat} {i : Nat} {j : JudgeTask}
    (h : (cancelJudge js o)[i]? = some j) (hp : j.status = .pending) :
    js[i]? = some j ∧ o ≠ some i := by
  rcases o with _ | jid
  · exact ⟨by simpa [cancelJudge] using h, by simp⟩
  · rcases hg : js[jid]? with _ | j0
    · have h' : js[i]? = some j := by simpa [cancelJudge, hg] using h
      refine ⟨h', ?_⟩
      intro he
      cases he
      rw [hg] at h'
      exact Option.noConfusion h'
    · by_cases hs : j0.status = .pending
      · simp only [cancelJudge, hg, if_pos hs] at h
        by_cases hit : jid = i
        · subst hit
          rw [List.getElem?_set_self (lookup_lt_length hg)] at h
          cases h
          simp at hp
        · refine ⟨by rwa [List.getElem?_set_ne hit] at h, ?_⟩
          intro he
          cases he
          exact hit rfl
      · have h' : js[i]? = some j := by simpa [cancelJudge, hg, hs] using h
        refine ⟨h', ?_⟩
        intro he
        cases he
        rw [hg] at h'
        cases h'
        exact hs hp

theorem cancelTimer_no_pending {ts : List WaitTimer} (o : Option Nat)
    (h : ∀ (tid : Nat) (t : WaitTimer), ts[tid]? = some t → t.status ≠ .pending) :
    cancelTimer ts o = ts := by
  rcases o with _ | tid
  · rfl
  · rcases hg : ts[tid]? with _ | t
    · simp [cancelTimer, hg]
    · simp [cancelTimer, hg, h tid t hg]

theorem cancelJudge_no_pending {js : List JudgeTask} (o : Option Nat)
    (h : ∀ (jid : Nat) (j : JudgeTask), js[jid]? = some j → j.status ≠ .pending) :
    cancelJudge js o = js := by
  rcases o with _ | jid
  · rfl
  · rcases hg : js[jid]? with _ | j
    · simp [cancelJudge, hg]
    · simp [cancelJudge, hg, h jid j hg]

theorem cancelTimer_of_pending {ts : List WaitTimer} {tid : Nat} {t : WaitTimer}
    (hg : ts[tid]? = some t) (hp : t.status = .pending) :
    cancelTimer ts (some tid) = ts.set tid { t with status := .cancelled } := by
  simp [cancelTimer, hg, hp]

theorem cancelJudge_of_pending {js : List JudgeTask} {jid : Nat} {j : JudgeTask}
    (hg : js[jid]? = some j) (hp : j.status = .pending) :
    cancelJudge js (some jid) = js.set jid { j with status := .cancelled } := by
  simp [cancelJudge, hg, hp]

/-! ## Characterization of the transition functions -/

/-- `add_message` for a group with no current block: a fresh block is
allocated, installed and receives exactly the new message, and a judge task
for it is started. -/
theorem addMessage_fresh_group (s : AggState) (g u : Int) (c : List Char) (mn : Bool)
    (now : Nat) (h : s.blocks g = none) :
    (addMessage s g u c mn now).blocks g = some s.nextBlockId ∧
    (∀ g', g' ≠ g → (addMessage s g u c mn now).blocks g' = s.blocks g') ∧
    (addMessage s g u c mn now).heap s.nextBlockId =
      some { blockId := s.nextBlockId, group_id := g,
             messages := [eventMsg u c mn now], created_at := now,
             last_message_at := now, is_processing := false, wait_task := none,
             judge_wait_task := some s.judges.length } ∧
    (∀ bid', bid' ≠ s.nextBlockId → (addMessage s g u c mn now).heap bid' = s.heap bid') ∧
    (addMessage s g u c mn now).timers = s.timers ∧
    (addMessage s g u c mn now).judges =
      s.judges ++ [{ group_id := g, blockId := s.nextBlockId, status := .pending }] ∧
    (addMessage s g u c mn now).inflight = s.inflight ∧
    (addMessage s g u c mn now).dispatched = s.dispatched ∧
    (addMessage s g u c mn now).nextBlockId = s.nextBlockId + 1 := by
  refine ⟨?_, ?_, ?_, ?_, ?_, ?_, ?_, ?_, ?_⟩ <;> intros <;>
    simp_all [addMessage, getBlock, updateHeap, eventMsg, cancelTimer, cancelJudge, freshBlock]

/-- `add_message` for a group whose current block is not processing: the
message is appended to that block, its pending tasks are cancelled and a new
judge task for it is started. -/
theorem addMessage_live (s : AggState) (g u : Int) (c : List Char) (mn : Bool) (now : Nat)
    (bid : Nat) (b : ResponseBlock)
    (h : s.blocks g = some bid) (hb : s.heap bid = some b) (hproc : b.is_processing = false) :
    (addMessage s g u c mn now).blocks = s.blocks ∧
    (addMessage s g u c mn now).heap bid =
      some { b with
             messages := b.messages ++ [eventMsg u c mn now]
             last_message_at := now
             judge_wait_task := some s.judges.length } ∧
    (∀ bid', bid' ≠ bid → (addMessage s g u c mn now).heap bid' = s.heap bid') ∧
    (addMessage s g u c mn now).timers = cancelTimer s.timers b.wait_task ∧
    (addMessage s g u c mn now).judges = cancelJudge s.judges b.judge_wait_task ++
      [{ group_id := g, blockId := bid, status := .pending }] ∧
    (addMessage s g u c mn now).inflight = s.inflight ∧
    (addMessage s g u c mn now).dispatched = s.dispatched ∧
    (addMessage s g u c mn now).nextBlockId = s.nextBlockId := by
  refine ⟨?_, ?_, ?_, ?_, ?_, ?_, ?_, ?_⟩ <;> intros <;>
    simp_all [addMessage, getBlock, updateHeap, eventMsg, cancelJudge_length]

/-- `add_message` for a group whose current block is processing: a brand-new
block is substituted and receives exactly the new message; the finalizing
block and the task lists are left alone (the fresh block has no tasks to
cancel). -/
theorem addMessage_processing (s : AggState) (g u : Int) (c : List Char) (mn : Bool)
    (now : Nat) (bid : Nat) (b : ResponseBlock)
    (h : s.blocks g = some bid) (hb : s.heap bid = some b) (hproc : b.is_processing = true) :
    (addMessage s g u c mn now).blocks g = some s.nextBlockId ∧
    (∀ g', g' ≠ g → (addMessage s g u c mn now).blocks g' = s.blocks g') ∧
    (addMessage s g u c mn now).heap s.nextBlockId =
      some { blockId := s.nextBlockId, group_id := g,
             messages := [eventMsg u c mn now], created_at := now,
             last_message_at := now, is_processing := false, wait_task := none,
             judge_wait_task := some s.judges.length } ∧
    (∀ bid', bid' ≠ s.nextBlockId → (addMessage s g u c mn now).heap bid' = s.heap bid') ∧
    (addMessage s g u c mn now).timers = s.timers ∧
    (addMessage s g u c mn now).judges =
      s.judges ++ [{ group_id := g, blockId := s.nextBlockId, status := .pending }] ∧
    (addMessage s g u c mn now).inflight = s.inflight ∧
    (addMessage s g u c mn now).dispatched = s.dispatched ∧
    (addMessage s g u c mn now).nextBlockId = s.nextBlockId + 1 := by
  refine ⟨?_, ?_, ?_, ?_, ?_, ?_, ?_, ?_, ?_⟩ <;> intros <;>
    simp_all [addMessage, getBlock, updateHeap, eventMsg, cancelTimer, cancelJudge, freshBlock]

/-- Completion of a pending judge task. -/
theorem judgeDone_char (s : AggState) (jid : Nat) (j : JudgeTask) (o : LLMOutcome)
    (h : s.judges[jid]? = some j) (hp : j.status = .pending) :
    judgeDone s jid o = some
      { s with
        judges := s.judges.set jid { j with status := .done }
        timers := s.timers ++
          [{ group_id := j.group_id, wait_seconds := waitDuration o, status := .pending }]
        heap := updateHeap s.heap j.blockId
          (fun b => { b with wait_task := some s.timers.length }) } := by
  simp [judgeDone, h, hp]

/-- A judge-completion event for a non-pending task id is not enabled. -/
theorem judgeDone_not_pending (s : AggState) (jid : Nat) (o : LLMOutcome)
    (h : ∀ j, s.judges[jid]? = some j → j.status ≠ .pending) :
    judgeDone s jid o = none := by
  rcases hg : s.judges[jid]? with _ | j
  · simp [judgeDone, hg]
  · simp [judgeDone, hg, h j hg]

/-- A pending wait timer firing on an empty current block: the only state
change is the timer finishing. -/
theorem timerFire_empty (s : AggState) (tid : Nat) (now : Nat) (t : WaitTimer)
    (bid : Nat) (b : ResponseBlock)
    (h : s.timers[tid]? = some t) (hp : t.status = .pending)
    (hg : s.blocks t.group_id = some bid) (hb : s.heap bid = some b)
    (hmsg : b.messages = []) :
    timerFire s tid now = some { s with timers := s.timers.set tid { t with status := .done } } := by
  simp [timerFire, h, hp, getBlock, hg, hb, hmsg, ResponseBlock.get_message_count]

/-- A pending wait timer firing on a non-empty current block: the block is
marked processing and handed to the dispatch callback. -/
theorem timerFire_nonempty (s : AggState) (tid : Nat) (now : Nat) (t : WaitTimer)
    (bid : Nat) (b : ResponseBlock)
    (h : s.timers[tid]? = some t) (hp : t.status = .pending)
    (hg : s.blocks t.group_id = some bid) (hb : s.heap bid = some b)
    (hmsg : b.messages ≠ []) :
    timerFire s tid now = some
      { s with
        timers := s.timers.set tid { t with status := .done }
        heap := updateHeap s.heap bid (fun x => { x with is_processing := true })
        inflight := s.inflight ++ [(t.group_id, bid)]
        dispatched := s.dispatched ++ [(t.group_id, bid, b.messages)] } := by
  have hc : ¬ b.get_message_count = 0 := by
    simp [ResponseBlock.get_message_count, hmsg]
  simp [timerFire, h, hp, getBlock, hg, hb, hc]

/-- A timer-fire event for a non-pending timer id is not enabled. -/
theorem timerFire_not_pending (s : AggState) (tid : Nat) (now : Nat)
    (h : ∀ t, s.timers[tid]? = some t → t.status ≠ .pending) :
    timerFire s tid now = none := by
  rcases hg : s.timers[tid]? with _ | t
  · simp [timerFire, hg]
  · simp [timerFire, hg, h t hg]

/-- The cleanup section for an in-flight dispatch whose block resolves. -/
theorem dispatchDone_char (s : AggState) (g : Int) (bid : Nat) (now : Nat) (b : ResponseBlock)
    (hmem : (g, bid) ∈ s.inflight) (hb : s.heap bid = some b) :
    dispatchDone s g bid now = some
      { s with
        timers := cancelTimer s.timers b.wait_task
        judges := cancelJudge s.judges b.judge_wait_task
        heap := updateHeap s.heap bid (fun x => { x with
          messages := []
          created_at := now
          last_message_at := now
          is_processing := false
          wait_task := none
          judge_wait_task := none })
        inflight := s.inflight.erase (g, bid) } := by
  simp [dispatchDone, hmem, clearBlock, hb]

/-- A cleanup event with no matching in-flight dispatch is not enabled. -/
theorem dispatchDone_not_inflight (s : AggState) (g : Int) (bid : Nat) (now : Nat)
    (h : (g, bid) ∉ s.inflight) :
    dispatchDone s g bid now = none := by
  simp [dispatchDone, h]

/-- C3: for a Wait-Time Oracle response that parses to a JSON object, a
`should_wait = true` verdict with a numeric `wait_seconds = w` schedules a
wait timer of `max 3 (min 10 w)` seconds; `should_wait = true` with a missing
or null `wait_seconds` schedules 5 seconds; `should_wait = false` schedules a
0-second timer. -/
theorem wait_time_clamp_spec (content : List Char) (kvs : List (List Char × Json))
    (h : parsedResponse content = some (Json.obj kvs)) :
    (pyGet kvs swKey = some (Json.bool true) →
      (∀ w : ℚ, pyGet kvs wsKey = some (Json.num w) →
        waitDuration (.returns content) = max 3 (min 10 w)) ∧
      ((pyGet kvs wsKey = none ∨ pyGet kvs wsKey = some Json.null) →
        waitDuration (.returns content) = 5)) ∧
    (pyGet kvs swKey = some (Json.bool false) → waitDuration (.returns content) = 0) := by
  simp only [parsedResponse] at h
  obtain ⟨jstr, hext, hload⟩ := Option.bind_eq_some.mp h
  refine ⟨fun hsw => ⟨fun w hw => ?_, fun hnull => ?_⟩, fun hsw => ?_⟩
  · simp [waitDuration, judgeWaitBody, hext, hload, hsw, pyGetValue, hw, Json.truthy, pyFloat]
  · rcases hnull with hn | hn <;>
      simp [waitDuration, judgeWaitBody, hext, hload, hsw, pyGetValue, hn, Json.truthy]
  · simp [waitDuration, judgeWaitBody, hext, hload, hsw, Json.truthy]

/-- C3 witness: concrete oracle responses exercising the clamp (7 stays 7)
and the `should_wait = false` immediate path. -/
theorem wait_time_clamp_spec_witness :
    waitDuration (.returns respWait7) = 7 ∧ waitDuration (.returns respNoWait) = 0 := by
  constructor
  · have h := wait_time_clamp_spec respWait7 respWait7Kvs (by with_unfolding_all rfl)
    have h2 := (h.1 (by with_unfolding_all rfl)).1 7 (by with_unfolding_all rfl)
    rw [h2]; decide
  · have h := wait_time_clamp_spec respNoWait respNoWaitKvs (by with_unfolding_all rfl)
    exact h.2 (by with_unfolding_all rfl)

/-- C4 counterexample: the response `"{x}"` contains no parseable JSON object,
yet the scheduled fallback is the generic 2-second one (the `json.loads`
failure is caught by the outer `except Exception`), not the claimed 5-second
malformed-response fallback. -/
theorem wait_time_braces_malformed_counterexample :
    parsedResponse respBad = none ∧
    waitDuration (.returns respBad) = 2 ∧ waitDuration (.returns respBad) ≠ 5 :=
  ⟨rfl, by decide, by decide⟩

/-- C4 amended: a wait timer is always scheduled on oracle failure — a
response with no brace-delimited span schedules the 5-second fallback, a
response whose extracted span fails `json.loads` follows the generic
exception path and schedules the 2-second fallback, and an oracle call that
raises schedules the 2-second fallback; none of these failures escapes the
handler. -/
theorem wait_time_fallback_progress (content : List Char) :
    (extractJsonSpan (pyStrip content) = none → waitDuration (.returns content) = 5) ∧
    (∀ jstr, extractJsonSpan (pyStrip content) = some jstr → jsonLoads jstr = none →
      waitDuration (.returns content) = 2) ∧
    waitDuration .raises = 2 := by
  refine ⟨fun hext => ?_, fun jstr hext hload => ?_, rfl⟩
  · simp [waitDuration, judgeWaitBody, hext]
  · simp [waitDuration, judgeWaitBody, hext, hload]

/-- C4 amended witness: both fallback paths at concrete responses. -/
theorem wait_time_fallback_progress_witness :
    waitDuration (.returns respNoJson) = 5 ∧ waitDuration (.returns respBad) = 2 := by
  constructor
  · exact (wait_time_fallback_progress respNoJson).1 (by rfl)
  · exact (wait_time_fallback_progress respBad).2.1 respBad (by rfl) (by rfl)

/-- C8: `add_message` never raises to its caller — the exception-tracking
model returns `ok` for every state and input, and the `_judge_wait_time`
handler absorbs every LLM outcome into a scheduled duration. -/
theorem add_message_never_raises (s : AggState) (g u : Int) (content : List Char)
    (mention : Bool) (now : Nat) :
    addMessageE s g u content mention now =
      Except.ok (addMessage s g u content mention now) ∧
    ∀ o, waitDurationE o = Except.ok (waitDuration o) := by
  constructor
  · simp only [addMessageE, addMessage]
    split
    · rfl
    · split <;> split <;> rfl
  · intro o
    cases o with
    | raises => rfl
    | returns c =>
      simp only [waitDurationE, waitDuration]
      split <;> rfl

/-- C9: the silence register defaults to false for a group never written,
returns the most recently written value otherwise, and writing one group
never changes what is read for another. -/
theorem silence_register_last_write_wins :
    (∀ (ops : List (Int × Bool)) (g : Int),
      is_silent (runSilenceOps ops) g =
        (((ops.filter (fun p => p.1 == g)).map Prod.snd).getLastD false)) ∧
    (∀ (ops : List (Int × Bool)) (g : Int), (∀ p ∈ ops, p.1 ≠ g) →
      is_silent (runSilenceOps ops) g = false) ∧
    (∀ (st : SilenceStates) (g : Int) (b : Bool) (g' : Int), g' ≠ g →
      is_silent (set_silent st g b) g' = is_silent st g') := by
  have main : ∀ (ops : List (Int × Bool)) (g : Int),
      is_silent (runSilenceOps ops) g =
        (((ops.filter (fun p => p.1 == g)).map Prod.snd).getLastD false) := by
    intro ops
    induction ops using List.reverseRecOn with
    | nil => intro g; rfl
    | append_singleton xs p ih =>
      intro g
      have hrun : runSilenceOps (xs ++ [p]) = set_silent (runSilenceOps xs) p.1 p.2 := by
        simp [runSilenceOps, List.foldl_append]
      by_cases hp : p.1 = g
      · subst hp
        rw [hrun]
        have h1 : is_silent (set_silent (runSilenceOps xs) p.1 p.2) p.1 = p.2 := by
          simp [is_silent, set_silent]
        have h2 : (xs ++ [p]).filter (fun q => q.1 == p.1) =
            xs.filter (fun q => q.1 == p.1) ++ [p] := by
          simp [List.filter_append]
        rw [h1, h2, List.map_append]
        exact (List.getLastD_concat _ _ _).symm
      · have hgp : ¬ g = p.1 := fun h => hp h.symm
        rw [hrun]
        have h1 : is_silent (set_silent (runSilenceOps xs) p.1 p.2) g =
            is_silent (runSilenceOps xs) g := by
          simp [is_silent, set_silent, hgp]
        have h2 : (xs ++ [p]).filter (fun q => q.1 == g) =
            xs.filter (fun q => q.1 == g) := by
          simp [List.filter_append, hp]
        rw [h1, h2, ih g]
  refine ⟨main, fun ops g h => ?_, fun st g b g' h => ?_⟩
  · rw [main]
    have : ops.filter (fun p => p.1 == g) = [] := by
      simp only [List.filter_eq_nil_iff]
      intro p hp
      simpa using h p hp
    simp [this]
  · simp [is_silent, set_silent, h]

/-- C9 witness: last-write-wins, default-false, and cross-group
non-interference at concrete group ids. -/
theorem silence_register_last_write_wins_witness :
    is_silent (runSilenceOps [(1, true), (2, true), (1, false)]) 1 = false ∧
    is_silent (runSilenceOps [(1, true)]) 3 = false ∧
    is_silent (set_silent emptySilence 1 true) 2 = is_silent emptySilence 2 := by
  refine ⟨?_, ?_, ?_⟩
  · rw [silence_register_last_write_wins.1 [(1, true), (2, true), (1, false)] 1]; rfl
  · exact silence_register_last_write_wins.2.1 [(1, true)] 3 (by decide)
  · exact silence_register_last_write_wins.2.2 emptySilence 1 true 2 (by decide)

/-- C10: `judge_block` absorbs every listed failure — an LLM call that raises,
a response with no parseable JSON object, or an empty block — into a no-reply
result (`should_reply = false`, `reply_count = 0`) instead of raising to the
dispatch callback. -/
theorem judge_block_absorbs_failures (block : ResponseBlock) (ctx : List Char)
    (gid : Option Int) (sil : SilenceStates) (llm : LLMOutcome)
    (h : llm = .raises ∨ block.messages = [] ∨
      ∃ c, llm = .returns c ∧ parsedResponse c = none) :
    ((judge_block block ctx gid sil llm).1).should_reply = Json.bool false ∧
    ((judge_block block ctx gid sil llm).1).reply_count = Json.num 0 := by
  by_cases hempty : block.messages = []
  · have hc : block.get_message_count = 0 := by
      simp [ResponseBlock.get_message_count, hempty]
    simp [judge_block, hc, BlockJudgeResult.no_reply]
  · have hc : ¬ block.get_message_count = 0 := by
      simp [ResponseBlock.get_message_count, hempty]
    rcases h with h | h | ⟨c, hc', hparse⟩
    · subst h
      simp [judge_block, hc, BlockJudgeResult.no_reply]
    · exact absurd h hempty
    · subst hc'
      simp only [parsedResponse] at hparse
      cases hext : extractJsonSpan (pyStrip c) with
      | none => simp [judge_block, hc, hext, BlockJudgeResult.no_reply]
      | some jstr =>
        have hload : jsonLoads jstr = none := by
          rw [hext] at hparse
          simpa using hparse
        simp [judge_block, hc, hext, hload, BlockJudgeResult.no_reply]

/-- C10 witness: a raising LLM call on a concrete one-message block yields the
no-reply result. -/
theorem judge_block_absorbs_failures_witness :
    ((judge_block sampleBlock [] none emptySilence .raises).1).should_reply = Json.bool false ∧
    ((judge_block sampleBlock [] none emptySilence .raises).1).reply_count = Json.num 0 :=
  judge_block_absorbs_failures sampleBlock [] none emptySilence .raises (Or.inl rfl)

/-! ## Frame lemmas for the dispatch log -/

theorem getBlock_frame (s : AggState) (g : Int) (now : Nat) :
    (getBlock s g now).1.dispatched = s.dispatched ∧
    (getBlock s g now).1.timers = s.timers ∧
    (getBlock s g now).1.judges = s.judges ∧
    (getBlock s g now).1.inflight = s.inflight ∧
    (getBlock s g now).1.blocks g = some (getBlock s g now).2 := by
  unfold getBlock
  rcases h : s.blocks g with _ | bid <;> simp [h]

theorem addMessage_frame (s : AggState) (g u : Int) (c : List Char) (mn : Bool) (now : Nat) :
    (addMessage s g u c mn now).dispatched = s.dispatched ∧
    (addMessage s g u c mn now).inflight = s.inflight := by
  rcases h : s.blocks g with _ | bid
  · constructor <;> simp [addMessage, getBlock, updateHeap, freshBlock, h]
  · rcases hb : s.heap bid with _ | b
    · constructor <;> simp [addMessage, getBlock, updateHeap, freshBlock, h, hb]
    · by_cases hp : b.is_processing <;> constructor <;>
        simp [addMessage, getBlock, updateHeap, freshBlock, h, hb, hp]

theorem step_dispatched {s s' : AggState} {e : Event} (h : step s e = some s') :
    s'.dispatched = s.dispatched ∨
    ∃ g bid msgs, msgs ≠ ([] : List PendingMessage) ∧
      s'.dispatched = s.dispatched ++ [(g, bid, msgs)] := by
  cases e with
  | add g u c mn now =>
    left
    simp only [step] at h
    cases h
    exact (addMessage_frame s g u c mn now).1
  | judge jid o =>
    left
    simp only [step, judgeDone] at h
    rcases hg : s.judges[jid]? with _ | j <;> simp only [hg] at h
    · exact Option.noConfusion h
    · by_cases hp : j.status = .pending
      · rw [if_pos hp] at h
        cases h
        rfl
      · rw [if_neg hp] at h
        exact Option.noConfusion h
  | fire tid now =>
    simp only [step, timerFire] at h
    rcases hg : s.timers[tid]? with _ | t <;> simp only [hg] at h
    · exact Option.noConfusion h
    · by_cases hp : t.status = .pending
      · rw [if_pos hp] at h
        split at h
        · cases h
          left
          exact (getBlock_frame _ _ _).1
        · rename_i b hb
          split at h
          · cases h
            left
            exact (getBlock_frame _ _ _).1
          · rename_i hc
            cases h
            right
            refine ⟨t.group_id,
              (getBlock { s with timers := s.timers.set tid { t with status := .done } }
                t.group_id now).2, b.messages, ?_, ?_⟩
            · simpa [ResponseBlock.get_message_count, List.length_eq_zero] using hc
            · show (getBlock _ _ _).1.dispatched ++ _ = _
              rw [(getBlock_frame _ _ _).1]
      · rw [if_neg hp] at h
        exact Option.noConfusion h
  | finish g bid now =>
    left
    simp only [step, dispatchDone] at h
    by_cases hm : (g, bid) ∈ s.inflight
    · rw [if_pos hm] at h
      cases h
      simp only [clearBlock]
      rcases hb : s.heap bid with _ | b <;> simp
    · rw [if_neg hm] at h
      exact Option.noConfusion h

/-! ## Well-formedness of the concrete witness states -/

theorem WF_procState : WF procState := by
  constructor
  · intro g bid hg
    by_cases h1 : g = 1
    · subst h1
      have hbid : bid = 0 := by
        simp [procState] at hg
        omega
      subst hbid
      exact ⟨procBlock, rfl, rfl, rfl⟩
    · exfalso
      simp [procState, h1] at hg
  · intro bid hb
    simp only [procState] at hb ⊢
    have hne : ¬ bid = 0 := by omega
    simp [hne]

/-- C2: `add_message` never appends to a processing block — when the group has
no current block, or its current block is processing, a brand-new block is
installed and receives exactly the new message, while a processing block is
never mutated at all. -/
theorem add_message_block_rules (s : AggState) (g u : Int) (c : List Char) (mn : Bool)
    (now : Nat) (hWF : WF s) :
    (s.blocks g = none →
      (addMessage s g u c mn now).blocks g = some s.nextBlockId ∧
      ∃ b, (addMessage s g u c mn now).heap s.nextBlockId = some b ∧
        b.messages = [eventMsg u c mn now] ∧ b.is_processing = false) ∧
    (∀ bid b, s.blocks g = some bid → s.heap bid = some b → b.is_processing = true →
      (addMessage s g u c mn now).blocks g = some s.nextBlockId ∧ s.nextBlockId ≠ bid ∧
      (addMessage s g u c mn now).heap bid = some b ∧
      ∃ b', (addMessage s g u c mn now).heap s.nextBlockId = some b' ∧
        b'.messages = [eventMsg u c mn now] ∧ b'.is_processing = false) ∧
    (∀ bid b, s.heap bid = some b → b.is_processing = true →
      (addMessage s g u c mn now).heap bid = some b) := by
  obtain ⟨hWF1, hWF2⟩ := hWF
  have hfresh : ∀ bid (b : ResponseBlock), s.heap bid = some b → bid ≠ s.nextBlockId := by
    intro bid b hb he
    subst he
    rw [hWF2 s.nextBlockId (le_refl _)] at hb
    exact Option.noConfusion hb
  refine ⟨fun hnone => ?_, fun bid b hbg hb hproc => ?_, fun bid b hb hproc => ?_⟩
  · obtain ⟨h1, _, h3, _⟩ := addMessage_fresh_group s g u c mn now hnone
    exact ⟨h1, _, h3, rfl, rfl⟩
  · obtain ⟨h1, _, h3, h4, _⟩ := addMessage_processing s g u c mn now bid b hbg hb hproc
    refine ⟨h1, Ne.symm (hfresh bid b hb), ?_, _, h3, rfl, rfl⟩
    rw [h4 bid (hfresh bid b hb)]
    exact hb
  · rcases hg : s.blocks g with _ | bid0
    · obtain ⟨_, _, _, h4, _⟩ := addMessage_fresh_group s g u c mn now hg
      rw [h4 bid (hfresh bid b hb)]
      exact hb
    · obtain ⟨b0, hb0, _, _⟩ := hWF1 g bid0 hg
      by_cases hp0 : b0.is_processing
      · obtain ⟨_, _, _, h4, _⟩ := addMessage_processing s g u c mn now bid0 b0 hg hb0 hp0
        rw [h4 bid (hfresh bid b hb)]
        exact hb
      · obtain ⟨_, _, h3, _⟩ :=
          addMessage_live s g u c mn now bid0 b0 hg hb0 (by simpa using hp0)
        have hne : bid ≠ bid0 := by
          intro he
          subst he
          rw [hb] at hb0
          cases hb0
          rw [hproc] at hp0
          exact hp0 rfl
        rw [h3 bid hne]
        exact hb

/-- C2 witness: adding to a group whose block is mid-dispatch installs a fresh
block with only the new message and leaves the processing instance untouched. -/
theorem add_message_block_rules_witness :
    (addMessage procState 1 3 (("yo").data) false 7).blocks 1 = some 1 ∧
    (addMessage procState 1 3 (("yo").data) false 7).heap 0 = some procBlock := by
  have h := add_message_block_rules procState 1 3 (("yo").data) false 7 WF_procState
  obtain ⟨h1, _, h3, _⟩ := h.2.1 0 procBlock rfl rfl rfl
  exact ⟨h1, h3⟩

/-- C5: a wait timer firing on an empty current block aborts as a no-op —
the processing flag is not set, the dispatch callback is not invoked and the
block is unchanged (only the timer task finishes) — and consequently every
block ever handed to the dispatch callback carries at least one message. -/
theorem empty_block_never_dispatched :
    (∀ (s : AggState) (tid now : Nat) (t : WaitTimer) (bid : Nat) (b : ResponseBlock),
      s.timers[tid]? = some t → t.status = .pending →
      s.blocks t.group_id = some bid → s.heap bid = some b → b.messages = [] →
      timerFire s tid now =
        some { s with timers := s.timers.set tid { t with status := .done } }) ∧
    (∀ s : AggState, Reachable s →
      ∀ e ∈ s.dispatched, e.2.2 ≠ ([] : List PendingMessage)) := by
  refine ⟨timerFire_empty, ?_⟩
  have main : ∀ (s0 : AggState) (evs : List Event) (s1 : AggState), Steps s0 evs s1 →
      (∀ e ∈ s0.dispatched, e.2.2 ≠ ([] : List PendingMessage)) →
      (∀ e ∈ s1.dispatched, e.2.2 ≠ ([] : List PendingMessage)) := by
    intro s0 evs s1 hsteps
    induction hsteps with
    | nil => exact fun h => h
    | cons hstep _ ih =>
      intro h0
      apply ih
      rcases step_dispatched hstep with hd | ⟨g, bid, msgs, hne, hd⟩
      · rw [hd]
        exact h0
      · rw [hd]
        intro e he
        rcases List.mem_append.mp he with he | he
        · exact h0 e he
        · rcases List.mem_singleton.mp he with rfl
          simpa using hne
  rintro s ⟨evs, hsteps⟩
  exact main initState evs s hsteps (by intro e he; simp [initState] at he)

/-- C5 witness: a concrete pending timer over an empty block fires into a pure
timer-status change. -/
theorem empty_block_never_dispatched_witness :
    timerFire emptyTimerState 0 3 =
      some { emptyTimerState with
             timers := emptyTimerState.timers.set 0
               { group_id := 1, wait_seconds := 5, status := .done } } :=
  empty_block_never_dispatched.1 emptyTimerState 0 3
    { group_id := 1, wait_seconds := 5, status := .pending } 0 emptyBlk rfl rfl rfl rfl rfl

/-- C6 counterexample: after a full add → judge → fire → cleanup cycle in
which the finalized instance is still the group's current entry, the mapping
is *not* cleared — the group still maps to the (now empty, reset) instance. -/
theorem cleanup_keeps_mapping_counterexample :
    Steps initState
      [Event.add 1 2 (("hi").data) false 0, Event.judge 0 .raises,
       Event.fire 0 1, Event.finish 1 0 2] ceS4 ∧
    ceS4.blocks 1 = some 0 ∧ ceS4.blocks 1 ≠ none ∧
    ceS4.heap 0 = some
      { blockId := 0
        group_id := 1
        messages := ([] : List PendingMessage)
        created_at := 2
        last_message_at := 2
        is_processing := false
        wait_task := none
        judge_wait_task := none } := by
  refine ⟨?_, ?_, ?_, ?_⟩
  · exact Steps.cons rfl (Steps.cons rfl (Steps.cons rfl (Steps.cons rfl (Steps.nil ceS4))))
  · with_unfolding_all rfl
  · intro hc
    rw [show ceS4.blocks 1 = some 0 by with_unfolding_all rfl] at hc
    exact Option.noConfusion hc
  · with_unfolding_all rfl

/-- C6 amended: after the dispatch callback returns, the finalized instance is
cleared in place (messages emptied, flags and task handles reset); the group
table is not modified at all — in particular, when the finalized instance is
still the current entry it remains mapped (as an empty block), and when a
newer block replaced it, the newer block's heap entry is untouched. -/
theorem cleanup_clears_instance_only (s : AggState) (g : Int) (bid : Nat) (now : Nat)
    (s' : AggState) (h : dispatchDone s g bid now = some s') :
    s'.blocks = s.blocks ∧
    (∀ b, s.heap bid = some b → s'.heap bid = some { b with
      messages := []
      created_at := now
      last_message_at := now
      is_processing := false
      wait_task := none
      judge_wait_task := none }) ∧
    (∀ bid', bid' ≠ bid → s'.heap bid' = s.heap bid') := by
  simp only [dispatchDone] at h
  by_cases hm : (g, bid) ∈ s.inflight
  · rw [if_pos hm] at h
    cases h
    rcases hb : s.heap bid with _ | b
    · refine ⟨?_, fun b' hb' => ?_, fun bid' hne => ?_⟩
      · simp only [clearBlock, hb]
      · exact Option.noConfusion hb'
      · simp only [clearBlock, hb]
    · refine ⟨?_, fun b' hb' => ?_, fun bid' hne => ?_⟩
      · simp only [clearBlock, hb]
      · cases hb'
        simp only [clearBlock, hb]
        exact updateHeap_same _ hb
      · simp only [clearBlock, hb]
        exact updateHeap_other _ hne
  · rw [if_neg hm] at h
    exact Option.noConfusion h

/-- C6 amended witness: in the concrete cycle the cleanup leaves the table
untouched and resets the finalized instance in place. -/
theorem cleanup_clears_instance_only_witness :
    ceS4.blocks = ceS3.blocks ∧ ceS4.heap 7 = ceS3.heap 7 := by
  have h := cleanup_clears_instance_only ceS3 1 0 2 ceS4 (by rfl)
  exact ⟨h.1, h.2.2 7 (by decide)⟩

/-! ## Indexing helpers -/

theorem getElem?_append_singleton {α : Type} {l : List α} {x y : α} {i : Nat}
    (h : (l ++ [x])[i]? = some y) :
    l[i]? = some y ∨ (i = l.length ∧ y = x) := by
  by_cases hi : i < l.length
  · left
    rwa [List.getElem?_append_left hi] at h
  · right
    have hlt : i < l.length + 1 := by
      have := lookup_lt_length h
      simpa using this
    have hie : i = l.length := by omega
    subst hie
    rw [List.getElem?_concat_length] at h
    cases h
    exact ⟨rfl, rfl⟩

theorem getElem?_set_cases {α : Type} {l : List α} {i k : Nat} {a y : α}
    (h : (l.set i a)[k]? = some y) :
    (k = i ∧ y = a) ∨ (k ≠ i ∧ l[k]? = some y) := by
  by_cases hk : k = i
  · subst hk
    left
    refine ⟨rfl, ?_⟩
    have hlt : k < l.length := by
      have := lookup_lt_length h
      simpa [List.length_set] using this
    rw [List.getElem?_set_self hlt] at h
    cases h
    rfl
  · right
    refine ⟨hk, ?_⟩
    rwa [List.getElem?_set_ne (Ne.symm hk)] at h

/-! ## Well-formedness lemmas -/

theorem WF_initState : WF initState := by
  constructor
  · intro g bid hg
    exact Option.noConfusion hg
  · intro bid _
    rfl

theorem WF_blocks_inj {s : AggState} (hWF : WF s) {g g' : Int} {bid : Nat}
    (h1 : s.blocks g = some bid) (h2 : s.blocks g' = some bid) : g = g' := by
  obtain ⟨b, hb, hgb, _⟩ := hWF.1 g bid h1
  obtain ⟨b', hb', hgb', _⟩ := hWF.1 g' bid h2
  rw [hb] at hb'
  cases hb'
  rw [← hgb, hgb']

theorem WF_heap_lt {s : AggState} (hWF : WF s) {bid : Nat} {b : ResponseBlock}
    (h : s.heap bid = some b) : bid < s.nextBlockId := by
  by_contra hc
  rw [hWF.2 bid (by omega)] at h
  exact Option.noConfusion h

theorem WF_bid_lt {s : AggState} (hWF : WF s) {g : Int} {bid : Nat}
    (h : s.blocks g = some bid) : bid < s.nextBlockId := by
  obtain ⟨b, hb, _, _⟩ := hWF.1 g bid h
  exact WF_heap_lt hWF hb

theorem WF_congr {s s' : AggState} (hWF : WF s) (hb : s'.blocks = s.blocks)
    (hh : s'.heap = s.heap) (hn : s'.nextBlockId = s.nextBlockId) : WF s' := by
  constructor
  · intro g bid hg
    rw [hb] at hg
    obtain ⟨b, hbb, h1, h2⟩ := hWF.1 g bid hg
    exact ⟨b, by rw [hh]; exact hbb, h1, h2⟩
  · intro bid hbig
    rw [hh]
    exact hWF.2 bid (by rw [← hn]; exact hbig)

theorem WF_addMessage {s : AggState} (hWF : WF s) (g u : Int) (c : List Char) (mn : Bool)
    (now : Nat) : WF (addMessage s g u c mn now) := by
  rcases hg : s.blocks g with _ | bid0
  · obtain ⟨h1, h2, h3, h4, _, _, _, _, h9⟩ := addMessage_fresh_group s g u c mn now hg
    constructor
    · intro g' bid hg'
      by_cases hgg : g' = g
      · subst hgg
        rw [h1] at hg'
        cases hg'
        exact ⟨_, h3, rfl, rfl⟩
      · rw [h2 g' hgg] at hg'
        obtain ⟨b, hb, hgb, hbb⟩ := hWF.1 g' bid hg'
        exact ⟨b, by rw [h4 bid (Nat.ne_of_lt (WF_bid_lt hWF hg'))]; exact hb, hgb, hbb⟩
    · intro bid hbig
      rw [h9] at hbig
      rw [h4 bid (by omega)]
      exact hWF.2 bid (by omega)
  · obtain ⟨b0, hb0, hgb0, hbid0⟩ := hWF.1 g bid0 hg
    by_cases hpr0 : b0.is_processing
    · obtain ⟨h1, h2, h3, h4, _, _, _, _, h9⟩ :=
        addMessage_processing s g u c mn now bid0 b0 hg hb0 hpr0
      constructor
      · intro g' bid hg'
        by_cases hgg : g' = g
        · subst hgg
          rw [h1] at hg'
          cases hg'
          exact ⟨_, h3, rfl, rfl⟩
        · rw [h2 g' hgg] at hg'
          obtain ⟨b, hb, hgb, hbb⟩ := hWF.1 g' bid hg'
          exact ⟨b, by rw [h4 bid (Nat.ne_of_lt (WF_bid_lt hWF hg'))]; exact hb, hgb, hbb⟩
      · intro bid hbig
        rw [h9] at hbig
        rw [h4 bid (by omega)]
        exact hWF.2 bid (by omega)
    · obtain ⟨h1, h2, h3, _, _, _, _, h8⟩ :=
        addMessage_live s g u c mn now bid0 b0 hg hb0 (by simpa using hpr0)
      constructor
      · intro g' bid hg'
        rw [h1] at hg'
        by_cases hbb : bid = bid0
        · subst hbb
          have : g' = g := WF_blocks_inj hWF hg' hg
          subst this
          exact ⟨_, h2, hgb0, hbid0⟩
        · obtain ⟨b, hb, hgb, hbb'⟩ := hWF.1 g' bid hg'
          exact ⟨b, by rw [h3 bid hbb]; exact hb, hgb, hbb'⟩
      · intro bid hbig
        rw [h8] at hbig
        have hne : bid ≠ bid0 := by
          have := WF_heap_lt hWF hb0
          omega
        rw [h3 bid hne]
        exact hWF.2 bid hbig

theorem WF_getBlock {s : AggState} (hWF : WF s) (g : Int) (now : Nat) :
    WF (getBlock s g now).1 := by
  rcases hg : s.blocks g with _ | bid
  · constructor
    · intro g' bid hb'
      simp only [getBlock, hg] at hb'
      by_cases hgg : g' = g
      · rw [if_pos hgg] at hb'
        cases hb'
        exact ⟨freshBlock s.nextBlockId g now, by simp [getBlock, hg], hgg.symm, rfl⟩
      · rw [if_neg hgg] at hb'
        obtain ⟨b, hb, hgb, hbb⟩ := hWF.1 g' bid hb'
        refine ⟨b, ?_, hgb, hbb⟩
        simp only [getBlock, hg]
        rw [if_neg (Nat.ne_of_lt (WF_bid_lt hWF hb'))]
        exact hb
    · intro bid hbig
      simp only [getBlock, hg] at hbig ⊢
      rw [if_neg (by omega : bid ≠ s.nextBlockId)]
      exact hWF.2 bid (by omega)
  · simpa [getBlock, hg] using hWF

theorem WF_judgeDone {s s' : AggState} (hWF : WF s) {jid : Nat} {o : LLMOutcome}
    (h : judgeDone s jid o = some s') : WF s' := by
  simp only [judgeDone] at h
  rcases hg : s.judges[jid]? with _ | j <;> simp only [hg] at h
  · exact Option.noConfusion h
  · by_cases hp : j.status = .pending
    · rw [if_pos hp] at h
      cases h
      constructor
      · intro g' bid hb'
        obtain ⟨b, hb, h1, h2⟩ := hWF.1 g' bid hb'
        by_cases hbj : bid = j.blockId
        · subst hbj
          exact ⟨_, updateHeap_same _ hb, h1, h2⟩
        · exact ⟨b, (updateHeap_other _ hbj).trans hb, h1, h2⟩
      · intro bid hbig
        have h0 : s.heap bid = none := hWF.2 bid hbig
        by_cases hbj : bid = j.blockId
        · subst hbj
          show updateHeap s.heap j.blockId _ j.blockId = none
          simp [updateHeap, h0]
        · exact (updateHeap_other _ hbj).trans h0
    · rw [if_neg hp] at h
      exact Option.noConfusion h

theorem WF_timerFire {s s' : AggState} (hWF : WF s) {tid now : Nat}
    (h : timerFire s tid now = some s') : WF s' := by
  simp only [timerFire] at h
  rcases hg : s.timers[tid]? with _ | t <;> simp only [hg] at h
  · exact Option.noConfusion h
  · by_cases hp : t.status = .pending
    · rw [if_pos hp] at h
      have hWF0 : WF ({ s with timers := s.timers.set tid { t with status := .done } } :
          AggState) := WF_congr hWF rfl rfl rfl
      have hWF1 := WF_getBlock hWF0 t.group_id now
      split at h
      · cases h
        exact hWF1
      · rename_i b hb
        split at h
        · cases h
          exact hWF1
        · cases h
          constructor
          · intro g' bid hb'
            obtain ⟨b2, hb2, h1, h2⟩ := hWF1.1 g' bid hb'
            by_cases hbb : bid = (getBlock { s with
                timers := s.timers.set tid { t with status := .done } } t.group_id now).2
            · subst hbb
              exact ⟨_, updateHeap_same _ hb2, h1, h2⟩
            · exact ⟨b2, (updateHeap_other _ hbb).trans hb2, h1, h2⟩
          · intro bid hbig
            have h0 := hWF1.2 bid hbig
            by_cases hbb : bid = (getBlock { s with
                timers := s.timers.set tid { t with status := .done } } t.group_id now).2
            · subst hbb
              show updateHeap _ _ _ _ = none
              simp [updateHeap, h0]
            · exact (updateHeap_other _ hbb).trans h0
    · rw [if_neg hp] at h
      exact Option.noConfusion h

/-- Full effect description of the cleanup step, used by several proofs. -/
theorem dispatchDone_effect {s s' : AggState} {g : Int} {bid : Nat} {now : Nat}
    (h : dispatchDone s g bid now = some s') :
    (g, bid) ∈ s.inflight ∧
    s'.blocks = s.blocks ∧ s'.nextBlockId = s.nextBlockId ∧
    s'.dispatched = s.dispatched ∧ s'.inflight = s.inflight.erase (g, bid) ∧
    ((s.heap bid = none ∧ s'.heap = s.heap ∧ s'.timers = s.timers ∧ s'.judges = s.judges) ∨
     (∃ b, s.heap bid = some b ∧
       s'.timers = cancelTimer s.timers b.wait_task ∧
       s'.judges = cancelJudge s.judges b.judge_wait_task ∧
       s'.heap bid = some { b with
         messages := []
         created_at := now
         last_message_at := now
         is_processing := false
         wait_task := none
         judge_wait_task := none } ∧
       (∀ bid', bid' ≠ bid → s'.heap bid' = s.heap bid'))) := by
  simp only [dispatchDone] at h
  by_cases hm : (g, bid) ∈ s.inflight
  · rw [if_pos hm] at h
    cases h
    refine ⟨hm, ?_, ?_, ?_, ?_, ?_⟩ <;> rcases hb : s.heap bid with _ | b

    · simp only [clearBlock, hb]
    · simp only [clearBlock, hb]
    · simp only [clearBlock, hb]
    · simp only [clearBlock, hb]
    · simp only [clearBlock, hb]
    · simp only [clearBlock, hb]
    · simp only [clearBlock, hb]
    · simp only [clearBlock, hb]
    · left
      refine ⟨rfl, ?_, ?_, ?_⟩ <;> simp only [clearBlock, hb]
    · right
      refine ⟨b, rfl, ?_, ?_, ?_, fun bid' hne => ?_⟩ <;> simp only [clearBlock, hb]
      · exact updateHeap_same _ hb
      · exact updateHeap_other _ hne
  · rw [if_neg hm] at h
    exact Option.noConfusion h

theorem Inv_addMessage {s : AggState} (hInv : Inv s) (g u : Int) (c : List Char)
    (mn : Bool) (now : Nat) : Inv (addMessage s g u c mn now) := by
  obtain ⟨hWF, hT, hJ, hX⟩ := hInv
  have hWF' : WF (addMessage s g u c mn now) := WF_addMessage hWF g u c mn now
  rcases hg : s.blocks g with _ | bid0
  · obtain ⟨h1, h2, h3, h4, h5, h6, _, _, _⟩ := addMessage_fresh_group s g u c mn now hg
    refine ⟨hWF', ?_, ?_, ?_⟩
    · intro tid t ht hp
      rw [h5] at ht
      obtain ⟨bid, b, hbt, hbh, hw, hpr⟩ := hT tid t ht hp
      have hne : t.group_id ≠ g := fun he => by
        rw [he, hg] at hbt
        exact Option.noConfusion hbt
      refine ⟨bid, b, ?_, ?_, hw, hpr⟩
      · rw [h2 t.group_id hne]
        exact hbt
      · rw [h4 bid (Nat.ne_of_lt (WF_bid_lt hWF hbt))]
        exact hbh
    · intro jid j hj hp
      rw [h6] at hj
      rcases getElem?_append_singleton hj with hjold | ⟨hlen, hnew⟩
      · obtain ⟨b, hbt, hbh, hw, hpr⟩ := hJ jid j hjold hp
        have hne : j.group_id ≠ g := fun he => by
          rw [he, hg] at hbt
          exact Option.noConfusion hbt
        refine ⟨b, ?_, ?_, hw, hpr⟩
        · rw [h2 j.group_id hne]
          exact hbt
        · rw [h4 j.blockId (Nat.ne_of_lt (WF_heap_lt hWF hbh))]
          exact hbh
      · subst hnew
        refine ⟨_, h1, h3, ?_, rfl⟩
        rw [hlen]
    · intro tid t jid j ht hp hj hp2
      rw [h5] at ht
      rw [h6] at hj
      obtain ⟨bid, b, hbt, _, _, _⟩ := hT tid t ht hp
      have hneT : t.group_id ≠ g := fun he => by
        rw [he, hg] at hbt
        exact Option.noConfusion hbt
      rcases getElem?_append_singleton hj with hjold | ⟨_, hnew⟩
      · exact hX tid t jid j ht hp hjold hp2
      · subst hnew
        exact hneT
  · obtain ⟨b0, hb0, hgb0, hbid0⟩ := hWF.1 g bid0 hg
    by_cases hpr0 : b0.is_processing
    · obtain ⟨h1, h2, h3, h4, h5, h6, _, _, _⟩ :=
        addMessage_processing s g u c mn now bid0 b0 hg hb0 hpr0
      refine ⟨hWF', ?_, ?_, ?_⟩
      · intro tid t ht hp
        rw [h5] at ht
        obtain ⟨bid, b, hbt, hbh, hw, hpr⟩ := hT tid t ht hp
        have hne : t.group_id ≠ g := by
          intro he
          rw [he, hg] at hbt
          cases hbt
          rw [hbh] at hb0
          cases hb0
          rw [hpr] at hpr0
          exact Bool.noConfusion hpr0
        refine ⟨bid, b, ?_, ?_, hw, hpr⟩
        · rw [h2 t.group_id hne]
          exact hbt
        · rw [h4 bid (Nat.ne_of_lt (WF_bid_lt hWF hbt))]
          exact hbh
      · intro jid j hj hp
        rw [h6] at hj
        rcases getElem?_append_singleton hj with hjold | ⟨hlen, hnew⟩
        · obtain ⟨b, hbt, hbh, hw, hpr⟩ := hJ jid j hjold hp
          have hne : j.group_id ≠ g := by
            intro he
            rw [he, hg] at hbt
            cases hbt
            rw [hbh] at hb0
            cases hb0
            rw [hpr] at hpr0
            exact Bool.noConfusion hpr0
          refine ⟨b, ?_, ?_, hw, hpr⟩
          · rw [h2 j.group_id hne]
            exact hbt
          · rw [h4 j.blockId (Nat.ne_of_lt (WF_heap_lt hWF hbh))]
            exact hbh
        · subst hnew
          refine ⟨_, h1, h3, ?_, rfl⟩
          rw [hlen]
      · intro tid t jid j ht hp hj hp2
        rw [h5] at ht
        rw [h6] at hj
        obtain ⟨bid, b, hbt, hbh, hw, hpr⟩ := hT tid t ht hp
        have hneT : t.group_id ≠ g := by
          intro he
          rw [he, hg] at hbt
          cases hbt
          rw [hbh] at hb0
          cases hb0
          rw [hpr] at hpr0
          exact Bool.noConfusion hpr0
        rcases getElem?_append_singleton hj with hjold | ⟨_, hnew⟩
        · exact hX tid t jid j ht hp hjold hp2
        · subst hnew
          exact hneT
    · have hpr0' : b0.is_processing = false := by simpa using hpr0
      obtain ⟨h1, h2, h3, h4, h5, _, _, _⟩ :=
        addMessage_live s g u c mn now bid0 b0 hg hb0 hpr0'
      refine ⟨hWF', ?_, ?_, ?_⟩
      · intro tid t ht hp
        rw [h4] at ht
        obtain ⟨htold, hno⟩ := cancelTimer_pending ht hp
        obtain ⟨bid, b, hbt, hbh, hw, hpr⟩ := hT tid t htold hp
        by_cases hgt : t.group_id = g
        · exfalso
          rw [hgt, hg] at hbt
          cases hbt
          rw [hbh] at hb0
          cases hb0
          exact hno hw
        · have hne : bid ≠ bid0 := by
            intro he
            subst he
            exact hgt (WF_blocks_inj hWF hbt hg)
          refine ⟨bid, b, ?_, ?_, hw, hpr⟩
          · rw [h1]
            exact hbt
          · rw [h3 bid hne]
            exact hbh
      · intro jid j hj hp
        rw [h5] at hj
        rcases getElem?_append_singleton hj with hjold | ⟨hlen, hnew⟩
        · obtain ⟨hjold', hno⟩ := cancelJudge_pending hjold hp
          obtain ⟨b, hbt, hbh, hw, hpr⟩ := hJ jid j hjold' hp
          by_cases hgt : j.group_id = g
          · exfalso
            rw [hgt, hg] at hbt
            cases hbt
            rw [hbh] at hb0
            cases hb0
            exact hno hw
          · have hne : j.blockId ≠ bid0 := by
              intro he
              rw [he] at hbt
              exact hgt (WF_blocks_inj hWF hbt hg)
            refine ⟨b, ?_, ?_, hw, hpr⟩
            · rw [h1]
              exact hbt
            · rw [h3 j.blockId hne]
              exact hbh
        · subst hnew
          rw [cancelJudge_length] at hlen
          refine ⟨_, ?_, h2, ?_, ?_⟩
          · rw [h1]
            exact hg
          · rw [hlen]
          · exact hpr0'
      · intro tid t jid j ht hp hj hp2
        rw [h4] at ht
        rw [h5] at hj
        obtain ⟨htold, hnoT⟩ := cancelTimer_pending ht hp
        obtain ⟨bid, b, hbt, hbh, hw, hpr⟩ := hT tid t htold hp
        have hneT : t.group_id ≠ g := by
          intro he
          rw [he, hg] at hbt
          cases hbt
          rw [hbh] at hb0
          cases hb0
          exact hnoT hw
        rcases getElem?_append_singleton hj with hjold | ⟨_, hnew⟩
        · obtain ⟨hjold', _⟩ := cancelJudge_pending hjold hp2
          exact hX tid t jid j htold hp hjold' hp2
        · subst hnew
          exact hneT

theorem WF_dispatchDone {s s' : AggState} (hWF : WF s) {g : Int} {bid : Nat} {now : Nat}
    (h : dispatchDone s g bid now = some s') : WF s' := by
  obtain ⟨_, hbk, hn, _, _, heff⟩ := dispatchDone_effect h
  rcases heff with ⟨_, hh, _, _⟩ | ⟨b, hb, _, _, hbid, hother⟩
  · exact WF_congr hWF hbk hh hn
  · constructor
    · intro g' bid' hg'
      rw [hbk] at hg'
      obtain ⟨b2, hb2, h1, h2⟩ := hWF.1 g' bid' hg'
      by_cases hbb : bid' = bid
      · subst hbb
        rw [hb2] at hb
        cases hb
        exact ⟨_, hbid, h1, h2⟩
      · exact ⟨b2, by rw [hother bid' hbb]; exact hb2, h1, h2⟩
    · intro bid' hbig
      rw [hn] at hbig
      have hne : bid' ≠ bid := by
        have := WF_heap_lt hWF hb
        omega
      rw [hother bid' hne]
      exact hWF.2 bid' hbig

theorem Inv_judgeDone {s s' : AggState} (hInv : Inv s) {jid : Nat} {o : LLMOutcome}
    (h : judgeDone s jid o = some s') : Inv s' := by
  obtain ⟨hWF, hT, hJ, hX⟩ := hInv
  have hWF' := WF_judgeDone hWF h
  simp only [judgeDone] at h
  rcases hg : s.judges[jid]? with _ | j <;> simp only [hg] at h
  · exact Option.noConfusion h
  · by_cases hp : j.status = .pending
    · rw [if_pos hp] at h
      cases h
      obtain ⟨b, hbt, hbh, hw, hpr⟩ := hJ jid j hg hp
      have hgne : ∀ (jid' : Nat) (j' : JudgeTask), s.judges[jid']? = some j' →
          j'.status = .pending → jid' ≠ jid → j'.group_id ≠ j.group_id := by
        intro jid' j' hjold hp2 hne he
        obtain ⟨b2, hbt2, hbh2, hw2, _⟩ := hJ jid' j' hjold hp2
        rw [he] at hbt2
        rw [hbt] at hbt2
        have hbb : j.blockId = j'.blockId := Option.some.inj hbt2
        rw [← hbb] at hbh2
        rw [hbh] at hbh2
        have hb2e : b = b2 := Option.some.inj hbh2
        rw [← hb2e] at hw2
        rw [hw] at hw2
        exact hne (Option.some.inj hw2).symm
      refine ⟨hWF', ?_, ?_, ?_⟩
      · intro tid t ht hp2
        rcases getElem?_append_singleton ht with htold | ⟨hlen, hnew⟩
        · obtain ⟨bid, b2, hbt2, hbh2, hw2, hpr2⟩ := hT tid t htold hp2
          have hne : t.group_id ≠ j.group_id := hX tid t jid j htold hp2 hg hp
          have hbne : bid ≠ j.blockId := by
            intro he
            subst he
            exact hne (WF_blocks_inj hWF hbt2 hbt)
          exact ⟨bid, b2, hbt2, (updateHeap_other _ hbne).trans hbh2, hw2, hpr2⟩
        · subst hnew
          refine ⟨j.blockId, _, hbt, updateHeap_same _ hbh, ?_, hpr⟩
          rw [hlen]
      · intro jid' j' hj' hp2
        rcases getElem?_set_cases hj' with ⟨he, hj'e⟩ | ⟨hne, hjold⟩
        · exfalso
          rw [hj'e] at hp2
          simp at hp2
        · obtain ⟨b2, hbt2, hbh2, hw2, hpr2⟩ := hJ jid' j' hjold hp2
          have hbne : j'.blockId ≠ j.blockId := by
            intro he
            have := hgne jid' j' hjold hp2 hne
            apply this
            rw [← he] at hbt
            exact WF_blocks_inj hWF hbt2 hbt
          exact ⟨b2, hbt2, (updateHeap_other _ hbne).trans hbh2, hw2, hpr2⟩
      · intro tid t jid' j' ht hp2 hj' hp3
        rcases getElem?_set_cases hj' with ⟨he, hj'e⟩ | ⟨hne, hjold⟩
        · exfalso
          rw [hj'e] at hp3
          simp at hp3
        · rcases getElem?_append_singleton ht with htold | ⟨_, hnew⟩
          · exact hX tid t jid' j' htold hp2 hjold hp3
          · subst hnew
            exact fun he => hgne jid' j' hjold hp3 hne he.symm
    · rw [if_neg hp] at h
      exact Option.noConfusion h

theorem Inv_timerFire {s s' : AggState} (hInv : Inv s) {tid now : Nat}
    (h : timerFire s tid now = some s') : Inv s' := by
  obtain ⟨hWF, hT, hJ, hX⟩ := hInv
  have hWF' := WF_timerFire hWF h
  rcases hg : s.timers[tid]? with _ | t
  · rw [timerFire_not_pending s tid now (by
      intro t' ht'
      rw [hg] at ht'
      exact Option.noConfusion ht')] at h
    exact Option.noConfusion h
  · by_cases hp : t.status = .pending
    · obtain ⟨bid, b, hbt, hbh, hw, hpr⟩ := hT tid t hg hp
      by_cases hc : b.messages = []
      · rw [timerFire_empty s tid now t bid b hg hp hbt hbh hc] at h
        cases h
        refine ⟨hWF', ?_, ?_, ?_⟩
        · intro tid' t' ht' hp2
          rcases getElem?_set_cases ht' with ⟨_, hte⟩ | ⟨_, htold⟩
          · exfalso
            rw [hte] at hp2
            simp at hp2
          · exact hT tid' t' htold hp2
        · exact fun jid j hj hp2 => hJ jid j hj hp2
        · intro tid' t' jid j ht' hp2 hj hp3
          rcases getElem?_set_cases ht' with ⟨_, hte⟩ | ⟨_, htold⟩
          · exfalso
            rw [hte] at hp2
            simp at hp2
          · exact hX tid' t' jid j htold hp2 hj hp3
      · rw [timerFire_nonempty s tid now t bid b hg hp hbt hbh hc] at h
        cases h
        refine ⟨hWF', ?_, ?_, ?_⟩
        · intro tid' t' ht' hp2
          rcases getElem?_set_cases ht' with ⟨_, hte⟩ | ⟨hne, htold⟩
          · exfalso
            rw [hte] at hp2
            simp at hp2
          · obtain ⟨bid', b', hbt', hbh', hw', hpr'⟩ := hT tid' t' htold hp2
            have hgneq : t'.group_id ≠ t.group_id := by
              intro he
              rw [he] at hbt'
              rw [hbt] at hbt'
              cases hbt'
              rw [hbh] at hbh'
              cases hbh'
              rw [hw] at hw'
              cases hw'
              exact hne rfl
            have hbne : bid' ≠ bid := by
              intro he
              subst he
              exact hgneq (WF_blocks_inj hWF hbt' hbt)
            exact ⟨bid', b', hbt', (updateHeap_other _ hbne).trans hbh', hw', hpr'⟩
        · intro jid j hj hp2
          obtain ⟨b', hbt', hbh', hw', hpr'⟩ := hJ jid j hj hp2
          have hgneq : j.group_id ≠ t.group_id := fun he =>
            (hX tid t jid j hg hp hj hp2) he.symm
          have hbne : j.blockId ≠ bid := by
            intro he
            rw [he] at hbt'
            exact hgneq (WF_blocks_inj hWF hbt' hbt)
          exact ⟨b', hbt', (updateHeap_other _ hbne).trans hbh', hw', hpr'⟩
        · intro tid' t' jid j ht' hp2 hj hp3
          rcases getElem?_set_cases ht' with ⟨_, hte⟩ | ⟨_, htold⟩
          · exfalso
            rw [hte] at hp2
            simp at hp2
          · exact hX tid' t' jid j htold hp2 hj hp3
    · rw [timerFire_not_pending s tid now (by
        intro t' ht'
        rw [hg] at ht'
        cases ht'
        exact hp)] at h
      exact Option.noConfusion h

theorem Inv_dispatchDone {s s' : AggState} (hInv : Inv s) {g : Int} {bid : Nat} {now : Nat}
    (h : dispatchDone s g bid now = some s') : Inv s' := by
  obtain ⟨hWF, hT, hJ, hX⟩ := hInv
  have hWF' := WF_dispatchDone hWF h
  obtain ⟨_, hbk, _, _, _, heff⟩ := dispatchDone_effect h
  rcases heff with ⟨_, hh, hts, hjs⟩ | ⟨b, hb, hts, hjs, _, hother⟩
  · refine ⟨hWF', ?_, ?_, ?_⟩
    · intro tid t ht hp
      rw [hts] at ht
      obtain ⟨bid', b', h1, h2, h3, h4⟩ := hT tid t ht hp
      exact ⟨bid', b', by rw [hbk]; exact h1, by rw [hh]; exact h2, h3, h4⟩
    · intro jid j hj hp
      rw [hjs] at hj
      obtain ⟨b', h1, h2, h3, h4⟩ := hJ jid j hj hp
      exact ⟨b', by rw [hbk]; exact h1, by rw [hh]; exact h2, h3, h4⟩
    · intro tid t jid j ht hp hj hp2
      rw [hts] at ht
      rw [hjs] at hj
      exact hX tid t jid j ht hp hj hp2
  · refine ⟨hWF', ?_, ?_, ?_⟩
    · intro tid t ht hp
      rw [hts] at ht
      obtain ⟨htold, hno⟩ := cancelTimer_pending ht hp
      obtain ⟨bid', b', hbt, hbh, hw, hpr⟩ := hT tid t htold hp
      have hne : bid' ≠ bid := by
        intro he
        subst he
        rw [hbh] at hb
        cases hb
        exact hno hw
      exact ⟨bid', b', by rw [hbk]; exact hbt, by rw [hother bid' hne]; exact hbh, hw, hpr⟩
    · intro jid j hj hp
      rw [hjs] at hj
      obtain ⟨hjold, hno⟩ := cancelJudge_pending hj hp
      obtain ⟨b', hbt, hbh, hw, hpr⟩ := hJ jid j hjold hp
      have hne : j.blockId ≠ bid := by
        intro he
        rw [he] at hbh
        rw [hbh] at hb
        cases hb
        exact hno hw
      exact ⟨b', by rw [hbk]; exact hbt, by rw [hother j.blockId hne]; exact hbh, hw, hpr⟩
    · intro tid t jid j ht hp hj hp2
      rw [hts] at ht
      rw [hjs] at hj
      obtain ⟨htold, _⟩ := cancelTimer_pending ht hp
      obtain ⟨hjold, _⟩ := cancelJudge_pending hj hp2
      exact hX tid t jid j htold hp hjold hp2

theorem Inv_step {s s' : AggState} {e : Event} (hInv : Inv s) (h : step s e = some s') :
    Inv s' := by
  cases e with
  | add g u c mn now =>
    simp only [step] at h
    cases h
    exact Inv_addMessage hInv g u c mn now
  | judge jid o => exact Inv_judgeDone hInv h
  | fire tid now => exact Inv_timerFire hInv h
  | finish g bid now => exact Inv_dispatchDone hInv h

theorem Inv_Steps {s s' : AggState} {evs : List Event} (h : Steps s evs s') (hInv : Inv s) :
    Inv s' := by
  induction h with
  | nil => exact hInv
  | cons hstep _ ih => exact ih (Inv_step hInv hstep)

theorem Inv_initState : Inv initState := by
  refine ⟨WF_initState, ?_, ?_, ?_⟩
  · intro tid t ht _
    simp [initState] at ht
  · intro jid j hj _
    simp [initState] at hj
  · intro tid t jid j ht _ _ _
    simp [initState] at ht

/-- C7: in every reachable state, each pending wait timer belongs to the
current, non-finalized block of its group (which holds it in `wait_task`),
and consequently at most one wait timer per group is pending at any instant —
two pending timers for the same group are the same task. -/
theorem at_most_one_pending_timer (s : AggState) (h : Reachable s) :
    PendingTimerRefs s ∧
    ∀ (tid₁ tid₂ : Nat) (t₁ t₂ : WaitTimer),
      s.timers[tid₁]? = some t₁ → t₁.status = .pending →
      s.timers[tid₂]? = some t₂ → t₂.status = .pending →
      t₁.group_id = t₂.group_id → tid₁ = tid₂ := by
  obtain ⟨evs, hsteps⟩ := h
  obtain ⟨hWF, hT, _, _⟩ := Inv_Steps hsteps Inv_initState
  refine ⟨hT, ?_⟩
  intro tid₁ tid₂ t₁ t₂ h1 hp1 h2 hp2 hgg
  obtain ⟨bid₁, b₁, hbt1, hbh1, hw1, _⟩ := hT tid₁ t₁ h1 hp1
  obtain ⟨bid₂, b₂, hbt2, hbh2, hw2, _⟩ := hT tid₂ t₂ h2 hp2
  rw [hgg] at hbt1
  rw [hbt2] at hbt1
  cases hbt1
  rw [hbh2] at hbh1
  cases hbh1
  rw [hw2] at hw1
  exact (Option.some.inj hw1).symm

/-! ## Stage transitions for a single burst -/

theorem stageA0_init (g : Int) : StageA0 g initState := by
  refine ⟨WF_initState, rfl, ?_, ?_, rfl, rfl⟩
  · intro tid t ht
    simp [initState] at ht
  · intro jid j hj
    simp [initState] at hj

theorem stageA0_add {g : Int} {s : AggState} (hst : StageA0 g s) (u : Int) (c : List Char)
    (mn : Bool) (now : Nat) :
    StageA1 g (addMessage s g u c mn now) s.nextBlockId s.judges.length
      [eventMsg u c mn now] := by
  obtain ⟨hWF, hbg, hnt, hnj, hdisp, hinf⟩ := hst
  obtain ⟨h1, _, h3, _, h5, h6, h7, h8, _⟩ := addMessage_fresh_group s g u c mn now hbg
  refine ⟨WF_addMessage hWF g u c mn now, h1, ⟨_, h3, rfl, rfl, rfl⟩, ?_, ?_, ?_, ?_, ?_⟩
  · rw [h6]
    exact List.getElem?_concat_length _ _
  · intro jid' j hj hp
    rw [h6] at hj
    rcases getElem?_append_singleton hj with hold | ⟨hlen, _⟩
    · exact absurd hp (hnj jid' j hold)
    · exact hlen
  · intro tid t ht
    rw [h5] at ht
    exact hnt tid t ht
  · rw [h8]
    exact hdisp
  · rw [h7]
    exact hinf

theorem stageA1_add {g : Int} {s : AggState} {bid jid : Nat} {ms : List PendingMessage}
    (hst : StageA1 g s bid jid ms) (u : Int) (c : List Char) (mn : Bool) (now : Nat) :
    StageA1 g (addMessage s g u c mn now) bid s.judges.length
      (ms ++ [eventMsg u c mn now]) := by
  obtain ⟨hWF, hbg, ⟨b, hb, hmsgs, hproc, hjwt⟩, hjud, huniq, hnt, hdisp, hinf⟩ := hst
  obtain ⟨h1, h2, _, h4, h5, h6, h7, _⟩ := addMessage_live s g u c mn now bid b hbg hb hproc
  have hct : cancelTimer s.timers b.wait_task = s.timers := cancelTimer_no_pending _ hnt
  have hcj : cancelJudge s.judges b.judge_wait_task =
      s.judges.set jid { group_id := g, blockId := bid, status := .cancelled } := by
    rw [hjwt]
    exact cancelJudge_of_pending hjud rfl
  refine ⟨WF_addMessage hWF g u c mn now, ?_, ?_, ?_, ?_, ?_, ?_, ?_⟩
  · rw [h1]
    exact hbg
  · refine ⟨_, h2, ?_, hproc, rfl⟩
    rw [hmsgs]
  · rw [h5, hcj]
    have hlen : (s.judges.set jid
        { group_id := g, blockId := bid, status := .cancelled }).length =
        s.judges.length := List.length_set _ _ _
    have hcl := List.getElem?_concat_length
      (s.judges.set jid { group_id := g, blockId := bid, status := .cancelled })
      ({ group_id := g, blockId := bid, status := .pending } : JudgeTask)
    rw [hlen] at hcl
    exact hcl
  · intro jid' j hj hp
    rw [h5, hcj] at hj
    rcases getElem?_append_singleton hj with hold | ⟨hlen, _⟩
    · rcases getElem?_set_cases hold with ⟨_, hje⟩ | ⟨hne, holdj⟩
      · exfalso
        rw [hje] at hp
        simp at hp
      · exact absurd (huniq jid' j holdj hp) hne
    · rw [List.length_set] at hlen
      exact hlen
  · intro tid t ht
    rw [h4, hct] at ht
    exact hnt tid t ht
  · rw [h7]
    exact hdisp
  · rw [h6]
    exact hinf

theorem stageA2_add {g : Int} {s : AggState} {bid tid : Nat} {ms : List PendingMessage}
    (hst : StageA2 g s bid tid ms) (u : Int) (c : List Char) (mn : Bool) (now : Nat) :
    StageA1 g (addMessage s g u c mn now) bid s.judges.length
      (ms ++ [eventMsg u c mn now]) := by
  obtain ⟨hWF, hbg, ⟨b, hb, hmsgs, hproc, hwt⟩, ⟨d, htim⟩, huniq, hnj, hdisp, hinf⟩ := hst
  obtain ⟨h1, h2, _, h4, h5, h6, h7, _⟩ := addMessage_live s g u c mn now bid b hbg hb hproc
  have hct : cancelTimer s.timers b.wait_task =
      s.timers.set tid { group_id := g, wait_seconds := d, status := .cancelled } := by
    rw [hwt]
    exact cancelTimer_of_pending htim rfl
  have hcj : cancelJudge s.judges b.judge_wait_task = s.judges := cancelJudge_no_pending _ hnj
  refine ⟨WF_addMessage hWF g u c mn now, ?_, ?_, ?_, ?_, ?_, ?_, ?_⟩
  · rw [h1]
    exact hbg
  · refine ⟨_, h2, ?_, hproc, rfl⟩
    rw [hmsgs]
  · rw [h5, hcj]
    exact List.getElem?_concat_length _ _
  · intro jid' j hj hp
    rw [h5, hcj] at hj
    rcases getElem?_append_singleton hj with hold | ⟨hlen, _⟩
    · exact absurd hp (hnj jid' j hold)
    · exact hlen
  · intro tid' t ht
    rw [h4, hct] at ht
    rcases getElem?_set_cases ht with ⟨_, hte⟩ | ⟨hne, htold⟩
    · rw [hte]
      simp
    · intro hp
      exact hne (huniq tid' t htold hp)
  · rw [h7]
    exact hdisp
  · rw [h6]
    exact hinf

theorem stageA1_judge {g : Int} {s : AggState} {bid jid : Nat} {ms : List PendingMessage}
    (hst : StageA1 g s bid jid ms) (o : LLMOutcome) :
    ∃ s', judgeDone s jid o = some s' ∧ StageA2 g s' bid s.timers.length ms := by
  obtain ⟨hWF, hbg, ⟨b, hb, hmsgs, hproc, _⟩, hjud, huniq, hnt, hdisp, hinf⟩ := hst
  have hchar := judgeDone_char s jid _ o hjud rfl
  refine ⟨_, hchar, WF_judgeDone hWF hchar, hbg, ?_, ?_, ?_, ?_, hdisp, hinf⟩
  · exact ⟨_, updateHeap_same _ hb, hmsgs, hproc, rfl⟩
  · exact ⟨waitDuration o, List.getElem?_concat_length _ _⟩
  · intro tid' t ht hp
    rcases getElem?_append_singleton ht with hold | ⟨hlen, _⟩
    · exact absurd hp (hnt tid' t hold)
    · exact hlen
  · intro jid' j hj
    rcases getElem?_set_cases hj with ⟨_, hje⟩ | ⟨hne, holdj⟩
    · rw [hje]
      simp
    · intro hp
      exact hne (huniq jid' j holdj hp)

theorem stageA2_fire {g : Int} {s : AggState} {bid tid : Nat} {ms : List PendingMessage}
    (hst : StageA2 g s bid tid ms) (hne : ms ≠ []) (now : Nat) :
    ∃ s', timerFire s tid now = some s' ∧ StageB g s' bid ms := by
  obtain ⟨hWF, hbg, ⟨b, hb, hmsgs, hproc, hwt⟩, ⟨d, htim⟩, huniq, hnj, hdisp, hinf⟩ := hst
  have hmne : b.messages ≠ [] := by
    rw [hmsgs]
    exact hne
  have hchar := timerFire_nonempty s tid now _ bid b htim rfl hbg hb hmne
  refine ⟨_, hchar, WF_timerFire hWF hchar, hbg, ?_, ?_, ?_, ?_, ?_⟩
  · exact ⟨_, updateHeap_same _ hb, rfl⟩
  · intro tid' t ht
    rcases getElem?_set_cases ht with ⟨_, hte⟩ | ⟨hne', htold⟩
    · rw [hte]
      simp
    · intro hp
      exact hne' (huniq tid' t htold hp)
  · intro jid j hj
    exact hnj jid j hj
  · rw [hdisp, hmsgs]
    rfl
  · rw [hinf]
    rfl

theorem stageB_finish {g : Int} {s : AggState} {bid : Nat} {ms : List PendingMessage}
    (hst : StageB g s bid ms) (now : Nat) :
    ∃ s', dispatchDone s g bid now = some s' ∧ StageC g s' bid ms := by
  obtain ⟨hWF, hbg, ⟨b, hb, _⟩, hnt, hnj, hdisp, hinf⟩ := hst
  have hmem : (g, bid) ∈ s.inflight := by
    rw [hinf]
    exact List.mem_singleton.mpr rfl
  have hchar := dispatchDone_char s g bid now b hmem hb
  have hct : cancelTimer s.timers b.wait_task = s.timers := cancelTimer_no_pending _ hnt
  have hcj : cancelJudge s.judges b.judge_wait_task = s.judges := cancelJudge_no_pending _ hnj
  refine ⟨_, hchar, WF_dispatchDone hWF hchar, ?_, ?_, hdisp, ?_⟩
  · intro tid t ht
    rw [show cancelTimer s.timers b.wait_task = s.timers from hct] at ht
    exact hnt tid t ht
  · intro jid j hj
    rw [show cancelJudge s.judges b.judge_wait_task = s.judges from hcj] at hj
    exact hnj jid j hj
  · rw [hinf]
    simp

/-! ## Phase analysis of a burst -/

theorem arrival_steps {g : Int} {evs : List Event} {ms : List PendingMessage}
    (harr : ArrTrace g evs ms) :
    ∀ {ms0 : List PendingMessage} {s s' : AggState},
    Steps s evs s' → ArrInv g s ms0 → ArrInv g s' (ms0 ++ ms) := by
  induction harr with
  | nil =>
    intro ms0 s s' hsteps hinv
    cases hsteps
    simpa using hinv
  | add u c mn now h ih =>
    intro ms0 s s' hsteps hinv
    cases hsteps with
    | cons hstep hrest =>
      simp only [step] at hstep
      cases hstep
      have hinv2 : ArrInv g (addMessage s g u c mn now) (ms0 ++ [eventMsg u c mn now]) := by
        rcases hinv with ⟨hms0, hA0⟩ | ⟨bid, jid, hA1⟩ | ⟨bid, tid, hA2⟩
        · subst hms0
          exact Or.inr (Or.inl ⟨_, _, by simpa using stageA0_add hA0 u c mn now⟩)
        · exact Or.inr (Or.inl ⟨_, _, stageA1_add hA1 u c mn now⟩)
        · exact Or.inr (Or.inl ⟨_, _, stageA2_add hA2 u c mn now⟩)
      have hfin := ih hrest hinv2
      simpa [List.append_assoc] using hfin
  | judge jid o h ih =>
    intro ms0 s s' hsteps hinv
    cases hsteps with
    | cons hstep hrest =>
      simp only [step] at hstep
      rcases hinv with ⟨hms0, hA0⟩ | ⟨bid, jid', hA1⟩ | ⟨bid, tid, hA2⟩
      · exfalso
        obtain ⟨_, _, _, hnj, _, _⟩ := hA0
        rw [judgeDone_not_pending s jid o (fun j hj => hnj jid j hj)] at hstep
        exact Option.noConfusion hstep
      · by_cases he : jid = jid'
        · subst he
          obtain ⟨s2, hjd, hA2'⟩ := stageA1_judge hA1 o
          rw [hjd] at hstep
          cases hstep
          exact ih hrest (Or.inr (Or.inr ⟨_, _, hA2'⟩))
        · exfalso
          obtain ⟨_, _, _, _, huniq, _, _, _⟩ := hA1
          rw [judgeDone_not_pending s jid o (fun j hj hp => he (huniq jid j hj hp))] at hstep
          exact Option.noConfusion hstep
      · exfalso
        obtain ⟨_, _, _, _, _, hnj, _, _⟩ := hA2
        rw [judgeDone_not_pending s jid o (fun j hj => hnj jid j hj)] at hstep
        exact Option.noConfusion hstep

theorem postInv_step {g : Int} {bid : Nat} {ms : List PendingMessage} {s s' : AggState}
    (hms : ms ≠ []) (hinv : PostInv g s bid ms) {e : Event} (hna : e.isAdd = false)
    (h : step s e = some s') : PostInv g s' bid ms := by
  cases e with
  | add _ _ _ _ _ => simp [Event.isAdd] at hna
  | judge jid o =>
    simp only [step] at h
    rcases hinv with ⟨jid', hA1⟩ | ⟨tid, hA2⟩ | hB | hC
    · by_cases he : jid = jid'
      · subst he
        obtain ⟨s2, hjd, hA2'⟩ := stageA1_judge hA1 o
        rw [hjd] at h
        cases h
        exact Or.inr (Or.inl ⟨_, hA2'⟩)
      · exfalso
        obtain ⟨_, _, _, _, huniq, _, _, _⟩ := hA1
        rw [judgeDone_not_pending s jid o (fun j hj hp => he (huniq jid j hj hp))] at h
        exact Option.noConfusion h
    · exfalso
      obtain ⟨_, _, _, _, _, hnj, _, _⟩ := hA2
      rw [judgeDone_not_pending s jid o (fun j hj => hnj jid j hj)] at h
      exact Option.noConfusion h
    · exfalso
      obtain ⟨_, _, _, _, hnj, _, _⟩ := hB
      rw [judgeDone_not_pending s jid o (fun j hj => hnj jid j hj)] at h
      exact Option.noConfusion h
    · exfalso
      obtain ⟨_, _, hnj, _, _⟩ := hC
      rw [judgeDone_not_pending s jid o (fun j hj => hnj jid j hj)] at h
      exact Option.noConfusion h
  | fire tid now =>
    simp only [step] at h
    rcases hinv with ⟨jid, hA1⟩ | ⟨tid', hA2⟩ | hB | hC
    · exfalso
      obtain ⟨_, _, _, _, _, hnt, _, _⟩ := hA1
      rw [timerFire_not_pending s tid now (fun t ht => hnt tid t ht)] at h
      exact Option.noConfusion h
    · by_cases he : tid = tid'
      · subst he
        obtain ⟨s2, hf, hB'⟩ := stageA2_fire hA2 hms now
        rw [hf] at h
        cases h
        exact Or.inr (Or.inr (Or.inl hB'))
      · exfalso
        obtain ⟨_, _, _, _, huniq, _, _, _⟩ := hA2
        rw [timerFire_not_pending s tid now (fun t ht hp => he (huniq tid t ht hp))] at h
        exact Option.noConfusion h
    · exfalso
      obtain ⟨_, _, _, hnt, _, _, _⟩ := hB
      rw [timerFire_not_pending s tid now (fun t ht => hnt tid t ht)] at h
      exact Option.noConfusion h
    · exfalso
      obtain ⟨_, hnt, _, _, _⟩ := hC
      rw [timerFire_not_pending s tid now (fun t ht => hnt tid t ht)] at h
      exact Option.noConfusion h
  | finish g' bid' now =>
    simp only [step] at h
    rcases hinv with ⟨jid, hA1⟩ | ⟨tid, hA2⟩ | hB | hC
    · exfalso
      rw [dispatchDone_not_inflight s g' bid' now (by
        rw [hA1.2.2.2.2.2.2.2]
        simp)] at h
      exact Option.noConfusion h
    · exfalso
      rw [dispatchDone_not_inflight s g' bid' now (by
        rw [hA2.2.2.2.2.2.2.2]
        simp)] at h
      exact Option.noConfusion h
    · have hinf : s.inflight = [(g, bid)] := hB.2.2.2.2.2.2
      by_cases hm : (g', bid') ∈ s.inflight
      · have hpair : (g', bid') = (g, bid) := by
          rw [hinf] at hm
          simpa using hm
        have hg' : g' = g := congrArg Prod.fst hpair
        have hb' : bid' = bid := congrArg Prod.snd hpair
        subst hg'
        subst hb'
        obtain ⟨s2, hd, hC'⟩ := stageB_finish hB now
        rw [hd] at h
        cases h
        exact Or.inr (Or.inr (Or.inr hC'))
      · exfalso
        rw [dispatchDone_not_inflight s g' bid' now hm] at h
        exact Option.noConfusion h
    · exfalso
      rw [dispatchDone_not_inflight s g' bid' now (by
        rw [hC.2.2.2.2]
        simp)] at h
      exact Option.noConfusion h

theorem postInv_steps {g : Int} {bid : Nat} {ms : List PendingMessage} (hms : ms ≠ [])
    {evs : List Event} {s s' : AggState} (hsteps : Steps s evs s')
    (hna : ∀ e ∈ evs, e.isAdd = false) (hinv : PostInv g s bid ms) :
    PostInv g s' bid ms := by
  induction hsteps with
  | nil => exact hinv
  | cons hstep _ ih =>
    refine ih (fun e he => hna e (List.mem_cons_of_mem _ he)) ?_
    exact postInv_step hms hinv (hna _ (List.mem_cons_self _ _)) hstep

theorem postInv_dispatched {g : Int} {bid : Nat} {ms : List PendingMessage} {s : AggState}
    (h : PostInv g s bid ms) :
    s.dispatched = [] ∨ s.dispatched = [(g, bid, ms)] := by
  rcases h with ⟨jid, hA1⟩ | ⟨tid, hA2⟩ | hB | hC
  · exact Or.inl hA1.2.2.2.2.2.2.1
  · exact Or.inl hA2.2.2.2.2.2.2.1
  · exact Or.inr hB.2.2.2.2.2.1
  · exact Or.inr hC.2.2.2.1

/-- C1: for every burst of `add_message` calls to one group — each arriving
before the scheduled wait timer fires, with judge-task completions
interleaved arbitrarily — the dispatch callback is invoked at most once in
any continuation without further messages, any invocation carries exactly the
burst's messages in arrival order, and a continuation exists (judge completes,
timer fires, cleanup runs) in which it is invoked exactly once. -/
theorem burst_exactly_one_dispatch (g : Int) (evs cont : List Event)
    (ms : List PendingMessage) (s1 s2 : AggState)
    (harr : ArrTrace g evs ms) (hne : ms ≠ [])
    (h1 : Steps initState evs s1)
    (hcont : ∀ e ∈ cont, e.isAdd = false)
    (h2 : Steps s1 cont s2) :
    (s2.dispatched = [] ∨ ∃ bid, s2.dispatched = [(g, bid, ms)]) ∧
    ∃ (cont2 : List Event) (s3 : AggState) (bid : Nat),
      (∀ e ∈ cont2, e.isAdd = false) ∧ Steps s1 cont2 s3 ∧
      s3.dispatched = [(g, bid, ms)] := by
  have hinv1 : ArrInv g s1 ms := by
    have hfin := arrival_steps harr h1 (Or.inl ⟨rfl, stageA0_init g⟩)
    simpa using hfin
  rcases hinv1 with ⟨hms, _⟩ | ⟨bid, jid, hA1⟩ | ⟨bid, tid, hA2⟩
  · exact absurd hms hne
  · constructor
    · rcases postInv_dispatched (postInv_steps hne h2 hcont (Or.inl ⟨jid, hA1⟩)) with h | h
      · exact Or.inl h
      · exact Or.inr ⟨bid, h⟩
    · obtain ⟨sA, hjd, hA2'⟩ := stageA1_judge hA1 .raises
      obtain ⟨sB, hf, hB'⟩ := stageA2_fire hA2' hne 0
      obtain ⟨sC, hd, hC'⟩ := stageB_finish hB' 0
      refine ⟨[Event.judge jid .raises, Event.fire s1.timers.length 0, Event.finish g bid 0],
        sC, bid, ?_, ?_, hC'.2.2.2.1⟩
      · intro e he
        simp only [List.mem_cons, List.mem_singleton] at he
        rcases he with rfl | rfl | rfl | he
        · rfl
        · rfl
        · rfl
        · exact absurd he (List.not_mem_nil e)
      · exact Steps.cons hjd (Steps.cons hf (Steps.cons hd (Steps.nil sC)))
  · constructor
    · rcases postInv_dispatched (postInv_steps hne h2 hcont (Or.inr (Or.inl ⟨tid, hA2⟩)))
        with h | h
      · exact Or.inl h
      · exact Or.inr ⟨bid, h⟩
    · obtain ⟨sB, hf, hB'⟩ := stageA2_fire hA2 hne 0
      obtain ⟨sC, hd, hC'⟩ := stageB_finish hB' 0
      refine ⟨[Event.fire tid 0, Event.finish g bid 0], sC, bid, ?_, ?_, hC'.2.2.2.1⟩
      · intro e he
        simp only [List.mem_cons, List.mem_singleton] at he
        rcases he with rfl | rfl | he
        · rfl
        · rfl
        · exact absurd he (List.not_mem_nil e)
      · exact Steps.cons hf (Steps.cons hd (Steps.nil sC))

/-- C1 witness: a one-message burst from the fresh aggregator with an empty
continuation. -/
theorem burst_exactly_one_dispatch_witness :
    (ceS1.dispatched = [] ∨ ∃ bid, ceS1.dispatched = [(1, bid, [msgHi])]) ∧
    ∃ (cont2 : List Event) (s3 : AggState) (bid : Nat),
      (∀ e ∈ cont2, e.isAdd = false) ∧ Steps ceS1 cont2 s3 ∧
      s3.dispatched = [(1, bid, [msgHi])] :=
  burst_exactly_one_dispatch 1 [Event.add 1 2 (("hi").data) false 0] []
    [msgHi] ceS1 ceS1
    (ArrTrace.add 2 (("hi").data) false 0 ArrTrace.nil)
    (by simp)
    (Steps.cons rfl (Steps.nil ceS1))
    (by simp)
    (Steps.nil ceS1)

/-- C7 witness: the invariant applied in a concrete reachable state with one
pending timer. -/
theorem at_most_one_pending_timer_witness : (0 : Nat) = 0 :=
  (at_most_one_pending_timer ceS2
    ⟨[Event.add 1 2 (("hi").data) false 0, Event.judge 0 .raises],
      Steps.cons rfl (Steps.cons rfl (Steps.nil ceS2))⟩).2 0 0
    { group_id := 1, wait_seconds := 2, status := .pending }
    { group_id := 1, wait_seconds := 2, status := .pending }
    (by with_unfolding_all rfl) rfl (by with_unfolding_all rfl) rfl rfl

end QQBot
